import Mathlib

/-!
# iotgw: the mDNS relay (`mdns.go`, `conn.go`)

A shallow embedding of the relay loop `MDNSProxy.listen`, the orchestrator
`MDNSProxy.Listen` and the connection wrappers `conn4` / `conn6`.

* Go `int` is `Int`, a byte is a `Nat`, `[]byte` is a `List`.
* A nil-able pointer or interface value is an `Option`; `error` is `Option Error`.
* The `conn` interface is a record of transition functions over an abstract
  connection state `σ`: each method call consumes the current state and yields
  the next one together with the values the Go method returns.
* Every run produces the list of calls it made (`Event`), in program order.
* The endless `for { ... }` of `listen` is unrolled a bounded number of times;
  the bound only limits how many datagram reads are observed.
-/

namespace iotgw

/-! ## Data model -/

abbrev Byte := Nat

/-- Go `net.IP`: a byte slice, `[]` being the nil address. -/
abbrev IP := List Byte

/-- Go `net.UDPAddr`, the only `net.Addr` the relay constructs. -/
structure UDPAddr where
  IP : List Byte
  Port : Int
deriving DecidableEq, Repr

/-- Go `net.Interface`, with the fields the relay reads. -/
structure Interface where
  Index : Int
  MTU : Int
  Name : String
deriving DecidableEq, Repr

/-- A Go `error` value. `temporary = none` is a value whose dynamic type does
not implement `net.Error`; `temporary = some t` is a `net.Error` whose
`Temporary()` method answers `t`. -/
structure Error where
  msg : String
  temporary : Option Bool
deriving DecidableEq, Repr

/-- Run-time faults of the Go program. -/
inductive Panic where
  | nilDeref
  | sliceBounds
deriving DecidableEq, Repr

/-- The `controlMsg` struct of conn.go. -/
structure controlMsg where
  HopLimit : Int
  IfIndex : Int
  Dst : IP
deriving DecidableEq, Repr

/-- What one `ReadFrom(p)` hands back: `data` are the bytes the callee left in
`p` (see `store`), the rest are the four Go return values. -/
structure ReadResult where
  data : List Byte
  n : Int
  cm : Option controlMsg
  src : Option UDPAddr
  err : Option Error
deriving DecidableEq, Repr

/-- The `conn` interface of conn.go. A `ReadFrom` may fault instead of
returning (the implementations in conn.go dereference a pointer). `WriteTo`
only reads the slice it is given. -/
structure conn (σ : Type) where
  ReadFrom : σ → List Byte → Except Panic (σ × ReadResult)
  WriteTo : σ → List Byte → controlMsg → UDPAddr → σ × Int × Option Error
  JoinGroup : σ → Interface → UDPAddr → σ × Option Error

/-- The arguments of the `log.Printf` calls of `listen`. -/
inductive LogLine where
  | joining (groupAddr : UDPAddr) (name : String)
  | readFailed (err : Error)
  | received (ifIndex : Int) (src : Option UDPAddr) (n : Int)
  | writeFailed (groupAddr : UDPAddr) (name : String) (err : Error)
  | wrote (n : Int) (name : String)
deriving DecidableEq, Repr

/-- The calls made by one run of `listen`, with their arguments and results.
`read r buf` is a `conn.ReadFrom` that returned `r` and left the buffer with
the contents `buf`, `readFault p` one that faulted. -/
inductive Event where
  | log (l : LogLine)
  | join (ifi : Interface) (groupAddr : UDPAddr) (err : Option Error)
  | read (r : ReadResult) (buf : List Byte)
  | readFault (p : Panic)
  | write (p : List Byte) (cm : controlMsg) (dst : UDPAddr) (n : Int) (err : Option Error)
deriving DecidableEq, Repr

/-- How a run of `listen` ends: it returned an error (it has no other
`return`), it faulted, or it is still looping when the observation stops. -/
inductive Outcome where
  | returned (err : Error)
  | panicked (p : Panic)
  | running
deriving DecidableEq, Repr

/-! ## Constants of mdns.go -/

def mdnsPort : Int := 5353

def maxPktSize : Nat := 9000

/-- Go `net.IPv4`: the 16-byte form of an IPv4 address. -/
def IPv4 (a b c d : Byte) : IP :=
  [0, 0, 0, 0, 0, 0, 0, 0, 0, 0, 0xff, 0xff, a, b, c, d]

def mdnsIPv4Addr : IP := IPv4 224 0 0 251

def mdnsUDPAddr4 : UDPAddr := { IP := mdnsIPv4Addr, Port := mdnsPort }

def mdnsIPv6Addr : IP := [0xff, 0x02, 0, 0, 0, 0, 0, 0, 0, 0, 0, 0, 0, 0, 0, 0xfb]

def mdnsUDPAddr6 : UDPAddr := { IP := mdnsIPv6Addr, Port := mdnsPort }

structure MDNSProxyConfig where
  DisableIPv4 : Bool
  DisableIPv6 : Bool
deriving DecidableEq, Repr

structure MDNSProxy where
  intfs : List Interface
  cfg : MDNSProxyConfig
deriving DecidableEq, Repr

/-- `NewMDNSProxy`: a nil config is replaced by the zero `MDNSProxyConfig`. -/
def NewMDNSProxy (interfaces : List Interface) (config : Option MDNSProxyConfig) : MDNSProxy :=
  match config with
  | none => { intfs := interfaces, cfg := { DisableIPv4 := false, DisableIPv6 := false } }
  | some cfg => { intfs := interfaces, cfg := cfg }

/-! ## The relay loop `MDNSProxy.listen` -/

/-- The contents of the slice `p` after a callee stored `data` in it: the
callee can change the elements of `p`, never its length. -/
def store (p data : List Byte) : List Byte :=
  (data ++ p.drop data.length).take p.length

/-- Go `buf[:n]` for a slice whose capacity equals its length: a fault unless
`0 ≤ n ≤ len(buf)`. -/
def sliceTo (buf : List Byte) (n : Int) : Option (List Byte) :=
  if 0 ≤ n ∧ n ≤ (buf.length : Int) then some (buf.take n.toNat) else none

/-- Lines 86-91 of mdns.go: the group joins. Yields the connection state, the
calls made and the error of the join that failed, if one did. -/
def joinAll {σ : Type} (c : conn σ) (groupAddr : UDPAddr) :
    List Interface → σ → σ × List Event × Option Error
  | [], s => (s, [], none)
  | ifi :: rest, s =>
    match c.JoinGroup s ifi groupAddr with
    | (s1, some err) =>
      (s1, [Event.log (.joining groupAddr ifi.Name), Event.join ifi groupAddr (some err)], some err)
    | (s1, none) =>
      match joinAll c groupAddr rest s1 with
      | (s2, t, r) =>
        (s2, Event.log (.joining groupAddr ifi.Name) :: Event.join ifi groupAddr none :: t, r)

/-- Lines 106-123 of mdns.go: the forwarding loop over the configured
interfaces for one datagram of `n` bytes held in `buf`, read with control
message `cm`. The `n, err :=` of line 117 declares new variables scoped to the
loop body, so `buf[:n]` of every pass uses the `n` of the read. -/
def forward {σ : Type} (c : conn σ) (groupAddr : UDPAddr) (buf : List Byte) (n : Int)
    (cm : controlMsg) : List Interface → σ → σ × List Event × Option Panic
  | [], s => (s, [], none)
  | intf :: rest, s =>
    if intf.Index = cm.IfIndex then
      forward c groupAddr buf n cm rest s
    else
      let outCM : controlMsg := { HopLimit := 0, IfIndex := intf.Index, Dst := [] }
      match sliceTo buf n with
      | none => (s, [], some Panic.sliceBounds)
      | some p =>
        match c.WriteTo s p outCM groupAddr with
        | (s1, n1, some err) =>
          match forward c groupAddr buf n cm rest s1 with
          | (s2, t, r) =>
            (s2, Event.write p outCM groupAddr n1 (some err)
                  :: Event.log (.writeFailed groupAddr intf.Name err) :: t, r)
        | (s1, n1, none) =>
          match forward c groupAddr buf n cm rest s1 with
          | (s2, t, r) =>
            (s2, Event.write p outCM groupAddr n1 none
                  :: Event.log (.wrote n1 intf.Name) :: t, r)

/-- How one pass of the `for { ... }` of `listen` ends. -/
inductive Step where
  | next
  | ret (err : Error)
  | panic (p : Panic)
deriving DecidableEq, Repr

/-- Lines 94-123 of mdns.go: one pass of the body of the `for { ... }`,
started with connection state `s` and buffer contents `buf`. Yields the state
and buffer after the pass, the calls made, and how the pass ends. -/
def listenIter {σ : Type} (c : conn σ) (intfs : List Interface) (groupAddr : UDPAddr)
    (s : σ) (buf : List Byte) : (σ × List Byte) × List Event × Step :=
  match c.ReadFrom s buf with
  | .error p => ((s, buf), [Event.readFault p], Step.panic p)
  | .ok (s1, r) =>
    let buf1 := store buf r.data
    match r.err with
    | some err =>
      match err.temporary with
      | some false => ((s1, buf1), [Event.read r buf1, Event.log (.readFailed err)], Step.ret err)
      | _ => ((s1, buf1), [Event.read r buf1, Event.log (.readFailed err)], Step.next)
    | none =>
      match r.cm with
      | none => ((s1, buf1), [Event.read r buf1], Step.panic Panic.nilDeref)
      | some cm =>
        match forward c groupAddr buf1 r.n cm intfs s1 with
        | (s2, t, none) =>
          ((s2, buf1), Event.read r buf1 :: Event.log (.received cm.IfIndex r.src r.n) :: t, Step.next)
        | (s2, t, some p) =>
          ((s2, buf1), Event.read r buf1 :: Event.log (.received cm.IfIndex r.src r.n) :: t,
            Step.panic p)

/-- Lines 93-124 of mdns.go: the `for { ... }`, observed for at most `fuel`
passes. -/
def listenLoop {σ : Type} (c : conn σ) (intfs : List Interface) (groupAddr : UDPAddr) :
    Nat → σ → List Byte → List Event × Outcome
  | 0, _, _ => ([], Outcome.running)
  | fuel + 1, s, buf =>
    match listenIter c intfs groupAddr s buf with
    | ((s1, buf1), t, Step.next) =>
      ((t ++ (listenLoop c intfs groupAddr fuel s1 buf1).1),
        (listenLoop c intfs groupAddr fuel s1 buf1).2)
    | (_, t, Step.ret err) => (t, Outcome.returned err)
    | (_, t, Step.panic p) => (t, Outcome.panicked p)

/-- `MDNSProxy.listen` (mdns.go lines 83-125) on connection `c` in state `s`. -/
def MDNSProxy.listen {σ : Type} (m : MDNSProxy) (c : conn σ) (groupAddr : UDPAddr)
    (s : σ) (fuel : Nat) : List Event × Outcome :=
  let buf : List Byte := List.replicate maxPktSize 0
  match joinAll c groupAddr m.intfs s with
  | (_, t, some err) => (t, Outcome.returned err)
  | (s1, t, none) =>
    ((t ++ (listenLoop c m.intfs groupAddr fuel s1 buf).1),
      (listenLoop c m.intfs groupAddr fuel s1 buf).2)

/-! ## The connection wrappers of conn.go -/

/-- The struct `ControlMessage` of golang.org/x/net/ipv4. -/
structure ipv4.ControlMessage where
  TTL : Int
  Src : IP
  Dst : IP
  IfIndex : Int
deriving DecidableEq, Repr

/-- The struct `ControlMessage` of golang.org/x/net/ipv6. -/
structure ipv6.ControlMessage where
  TrafficClass : Int
  HopLimit : Int
  Src : IP
  Dst : IP
  IfIndex : Int
  MTU : Int
deriving DecidableEq, Repr

/-- What the embedded `PacketConn.ReadFrom(p)` hands back: the bytes it left
in `p` and its four return values, the control message being a pointer that
may be nil. -/
structure PacketRead (CM : Type) where
  data : List Byte
  n : Int
  cm : Option CM
  src : Option UDPAddr
  err : Option Error

/-- The methods of `*ipv4.PacketConn` that conn.go and mdns.go call. -/
structure ipv4.PacketConn (σ : Type) where
  ReadFrom : σ → List Byte → σ × PacketRead ipv4.ControlMessage
  WriteTo : σ → List Byte → ipv4.ControlMessage → UDPAddr → σ × Int × Option Error
  JoinGroup : σ → Interface → UDPAddr → σ × Option Error

/-- The methods of `*ipv6.PacketConn` that conn.go and mdns.go call. -/
structure ipv6.PacketConn (σ : Type) where
  ReadFrom : σ → List Byte → σ × PacketRead ipv6.ControlMessage
  WriteTo : σ → List Byte → ipv6.ControlMessage → UDPAddr → σ × Int × Option Error
  JoinGroup : σ → Interface → UDPAddr → σ × Option Error

structure conn4 (σ : Type) where
  PacketConn : ipv4.PacketConn σ

structure conn6 (σ : Type) where
  PacketConn : ipv6.PacketConn σ

/-- `conn4.ReadFrom` (conn.go lines 51-60): the fields of `v4cm` are read
before anything else, so a nil `v4cm` faults. -/
def conn4.ReadFrom {σ : Type} (c : conn4 σ) (s : σ) (p : List Byte) :
    Except Panic (σ × ReadResult) :=
  match c.PacketConn.ReadFrom s p with
  | (s1, r) =>
    match r.cm with
    | none => .error Panic.nilDeref
    | some v4cm =>
      .ok (s1, { data := r.data, n := r.n,
                 cm := some { HopLimit := v4cm.TTL, IfIndex := v4cm.IfIndex, Dst := v4cm.Dst },
                 src := r.src, err := r.err })

/-- `conn4.WriteTo` (conn.go lines 62-69). -/
def conn4.WriteTo {σ : Type} (c : conn4 σ) (s : σ) (p : List Byte) (cm : controlMsg)
    (dst : UDPAddr) : σ × Int × Option Error :=
  c.PacketConn.WriteTo s p { TTL := cm.HopLimit, Src := [], Dst := cm.Dst, IfIndex := cm.IfIndex } dst

/-- `conn6.ReadFrom` (conn.go lines 107-116). -/
def conn6.ReadFrom {σ : Type} (c : conn6 σ) (s : σ) (p : List Byte) :
    Except Panic (σ × ReadResult) :=
  match c.PacketConn.ReadFrom s p with
  | (s1, r) =>
    match r.cm with
    | none => .error Panic.nilDeref
    | some v6cm =>
      .ok (s1, { data := r.data, n := r.n,
                 cm := some { HopLimit := v6cm.HopLimit, IfIndex := v6cm.IfIndex, Dst := v6cm.Dst },
                 src := r.src, err := r.err })

/-- `conn6.WriteTo` (conn.go lines 118-125). -/
def conn6.WriteTo {σ : Type} (c : conn6 σ) (s : σ) (p : List Byte) (cm : controlMsg)
    (dst : UDPAddr) : σ × Int × Option Error :=
  c.PacketConn.WriteTo s p
    { TrafficClass := 0, HopLimit := cm.HopLimit, Src := [], Dst := cm.Dst,
      IfIndex := cm.IfIndex, MTU := 0 } dst

/-- A `*conn4` as a `conn`: `JoinGroup` is promoted from the embedded
`*ipv4.PacketConn`. -/
def conn4.toConn {σ : Type} (c : conn4 σ) : conn σ :=
  { ReadFrom := c.ReadFrom, WriteTo := c.WriteTo, JoinGroup := c.PacketConn.JoinGroup }

/-- A `*conn6` as a `conn`. -/
def conn6.toConn {σ : Type} (c : conn6 σ) : conn σ :=
  { ReadFrom := c.ReadFrom, WriteTo := c.WriteTo, JoinGroup := c.PacketConn.JoinGroup }

/-! ## Opening the connections and `MDNSProxy.Listen` -/

inductive ControlFlags where
  | FlagDst
  | FlagInterface
  | FlagTTL
  | FlagHopLimit
deriving DecidableEq, Repr

/-- The outcome of each call made while a socket is opened, by network
(`"udp4"` / `"udp6"`). `ListenPacket` stands for `lnConfig.ListenPacket(ctx,
network, addr)`, its `Control` hook `setReuseAddress` included. -/
structure Sockets where
  ListenPacket : String → String → Option Error
  SetMulticastLoopback : String → Bool → Option Error
  SetMulticastTTL : Int → Option Error
  SetMulticastHopLimit : Int → Option Error
  SetControlMessage : String → List ControlFlags → Bool → Option Error

/-- The two connections of `Listen`. -/
inductive Which where
  | conn4
  | conn6
deriving DecidableEq, Repr

/-- The calls made by the goroutine that runs `Listen`, in program order.
`go c groupAddr intfs` is the `go func() { m.listen(c, groupAddr); wg.Done() }()`
statement. -/
inductive MainEvent where
  | ListenPacket (network addr : String) (err : Option Error)
  | SetMulticastLoopback (network : String) (enable : Bool) (err : Option Error)
  | SetMulticastTTL (ttl : Int) (err : Option Error)
  | SetMulticastHopLimit (hoplim : Int) (err : Option Error)
  | SetControlMessage (network : String) (flags : List ControlFlags) (enable : Bool)
      (err : Option Error)
  | go (c : Which) (groupAddr : UDPAddr) (intfs : List Interface)
  | Wait
  | Close (c : Which)
  | cancel
deriving DecidableEq, Repr

/-- `newConn4` (conn.go lines 71-101): the calls made and the error returned,
`none` when the connection is handed back. -/
def newConn4 (os : Sockets) (addr : String) : List MainEvent × Option Error :=
  match os.ListenPacket "udp4" addr with
  | some err => ([.ListenPacket "udp4" addr (some err)], some err)
  | none =>
    match os.SetMulticastLoopback "udp4" true with
    | some err =>
      ([.ListenPacket "udp4" addr none, .SetMulticastLoopback "udp4" true (some err)], some err)
    | none =>
      match os.SetMulticastTTL 255 with
      | some err =>
        ([.ListenPacket "udp4" addr none, .SetMulticastLoopback "udp4" true none,
          .SetMulticastTTL 255 (some err)], some err)
      | none =>
        ([.ListenPacket "udp4" addr none, .SetMulticastLoopback "udp4" true none,
          .SetMulticastTTL 255 none,
          .SetControlMessage "udp4" [.FlagDst, .FlagInterface, .FlagTTL] true
            (os.SetControlMessage "udp4" [.FlagDst, .FlagInterface, .FlagTTL] true)],
         os.SetControlMessage "udp4" [.FlagDst, .FlagInterface, .FlagTTL] true)

/-- `newConn6` (conn.go lines 127-157). -/
def newConn6 (os : Sockets) (addr : String) : List MainEvent × Option Error :=
  match os.ListenPacket "udp6" addr with
  | some err => ([.ListenPacket "udp6" addr (some err)], some err)
  | none =>
    match os.SetMulticastLoopback "udp6" true with
    | some err =>
      ([.ListenPacket "udp6" addr none, .SetMulticastLoopback "udp6" true (some err)], some err)
    | none =>
      match os.SetMulticastHopLimit 255 with
      | some err =>
        ([.ListenPacket "udp6" addr none, .SetMulticastLoopback "udp6" true none,
          .SetMulticastHopLimit 255 (some err)], some err)
      | none =>
        ([.ListenPacket "udp6" addr none, .SetMulticastLoopback "udp6" true none,
          .SetMulticastHopLimit 255 none,
          .SetControlMessage "udp6" [.FlagDst, .FlagInterface, .FlagHopLimit] true
            (os.SetControlMessage "udp6" [.FlagDst, .FlagInterface, .FlagHopLimit] true)],
         os.SetControlMessage "udp6" [.FlagDst, .FlagInterface, .FlagHopLimit] true)

/-- Go `strconv.Itoa`. -/
def Itoa (i : Int) : String := toString i

/-- A run of `MDNSProxy.Listen`: the calls of the calling goroutine, the run
of each relay goroutine that was started (they run concurrently with the
caller and with each other, each on its own connection and buffer), and the
value returned, `none` when `Listen` does not return. -/
structure ListenRun where
  events : List MainEvent
  loop4 : Option (List Event × Outcome)
  loop6 : Option (List Event × Outcome)
  ret : Option (Option Error)
deriving DecidableEq, Repr

/-- Whether `wg.Wait()` stops waiting for a relay goroutine: it was never
started, or its `listen` returned (so that `wg.Done()` ran). -/
def finished : Option (List Event × Outcome) → Bool
  | none => true
  | some (_, Outcome.returned _) => true
  | some _ => false

/-- `MDNSProxy.Listen` (mdns.go lines 42-79). `pc4`, `s4` (`pc6`, `s6`) are
the packet connection that `newConn4` (`newConn6`) wraps when it succeeds.
The value that `m.listen` returns inside the goroutine is dropped there
(lines 57 and 72). The deferred calls run, last registered first, when
`Listen` returns. -/
def MDNSProxy.Listen {σ4 σ6 : Type} (m : MDNSProxy) (os : Sockets)
    (pc4 : ipv4.PacketConn σ4) (s4 : σ4) (pc6 : ipv6.PacketConn σ6) (s6 : σ6)
    (fuel : Nat) : ListenRun :=
  let addr := ":" ++ Itoa mdnsPort
  -- lines 48-61
  let v4 : List MainEvent × Option Error × Option (List Event × Outcome) :=
    if m.cfg.DisableIPv4 then ([], none, none)
    else
      match newConn4 os addr with
      | (t, some err) => (t, some err, none)
      | (t, none) =>
        (t ++ [MainEvent.go Which.conn4 mdnsUDPAddr4 m.intfs], none,
          some (m.listen (conn4.mk pc4).toConn mdnsUDPAddr4 s4 fuel))
  match v4 with
  | (t4, some err, _) =>
    { events := t4 ++ [MainEvent.cancel], loop4 := none, loop6 := none, ret := some (some err) }
  | (t4, none, l4) =>
    let close4 : List MainEvent := if l4.isSome then [MainEvent.Close Which.conn4] else []
    -- lines 63-75
    let v6 : List MainEvent × Option Error × Option (List Event × Outcome) :=
      if m.cfg.DisableIPv6 then ([], none, none)
      else
        match newConn6 os addr with
        | (t, some err) => (t, some err, none)
        | (t, none) =>
          (t ++ [MainEvent.go Which.conn6 mdnsUDPAddr6 m.intfs], none,
            some (m.listen (conn6.mk pc6).toConn mdnsUDPAddr6 s6 fuel))
    match v6 with
    | (t6, some err, _) =>
      { events := t4 ++ t6 ++ close4 ++ [MainEvent.cancel], loop4 := l4, loop6 := none,
        ret := some (some err) }
    | (t6, none, l6) =>
      let close6 : List MainEvent := if l6.isSome then [MainEvent.Close Which.conn6] else []
      -- lines 77-78
      if finished l4 && finished l6 then
        { events := t4 ++ t6 ++ [MainEvent.Wait] ++ close6 ++ close4 ++ [MainEvent.cancel],
          loop4 := l4, loop6 := l6, ret := some none }
      else
        { events := t4 ++ t6 ++ [MainEvent.Wait], loop4 := l4, loop6 := l6, ret := none }

/-! ## Observations on a run -/

def Event.isRead : Event → Bool
  | .read _ _ => true
  | .readFault _ => true
  | _ => false

def Event.isWrite : Event → Bool
  | .write _ _ _ _ _ => true
  | _ => false

def Event.isJoin : Event → Bool
  | .join _ _ _ => true
  | _ => false

/-- The `conn.WriteTo` calls of a run, in order: payload, control message,
destination. -/
def writeCalls (t : List Event) : List (List Byte × controlMsg × UDPAddr) :=
  t.filterMap fun e =>
    match e with
    | .write p cm dst _ _ => some (p, cm, dst)
    | _ => none

/-- The `conn.JoinGroup` calls of a run, in order: interface and group. -/
def joinCalls (t : List Event) : List (Interface × UDPAddr) :=
  t.filterMap fun e =>
    match e with
    | .join ifi g _ => some (ifi, g)
    | _ => none

/-- The calls of a run up to its next `ReadFrom`: applied to what follows a
read, the calls made for that datagram. -/
def untilRead (t : List Event) : List Event :=
  t.takeWhile fun e => !e.isRead

/-- The control message that line 113 builds for the interface `intf`. -/
def outCM (intf : Interface) : controlMsg :=
  { HopLimit := 0, IfIndex := intf.Index, Dst := [] }

/-- The configured interfaces whose index is not `a`, in configured order. -/
def others (intfs : List Interface) (a : Int) : List Interface :=
  intfs.filter fun i => decide (i.Index ≠ a)

/-- The `go` statements among the calls of `Listen`. -/
def MainEvent.isGo : MainEvent → Bool
  | .go _ _ _ => true
  | _ => false

/-- The calls of `Listen` that concern IPv6: what `newConn6` does, the start
of the relay loop on `conn6`, and the close of `conn6`. -/
def MainEvent.onIPv6 : MainEvent → Bool
  | .ListenPacket network _ _ => network == "udp6"
  | .SetMulticastLoopback network _ _ => network == "udp6"
  | .SetMulticastHopLimit _ _ => true
  | .SetControlMessage network _ _ _ => network == "udp6"
  | .go c g _ => c == Which.conn6 || g == mdnsUDPAddr6
  | .Close c => c == Which.conn6
  | _ => false

/-- The calls of `Listen` that set up the IPv4 side, in order: what `newConn4`
does and the start of the relay loop on `conn4`. -/
def ipv4Setup (t : List MainEvent) : List MainEvent :=
  t.filter fun e =>
    match e with
    | .ListenPacket network _ _ => network == "udp4"
    | .SetMulticastLoopback network _ _ => network == "udp4"
    | .SetMulticastTTL _ _ => true
    | .SetControlMessage network _ _ _ => network == "udp4"
    | .go c _ _ => c == Which.conn4
    | _ => false

/-! ## Example inputs -/

def eth0 : Interface := { Index := 2, MTU := 1500, Name := "eth0" }

def eth1 : Interface := { Index := 3, MTU := 1500, Name := "eth1" }

def wlan0 : Interface := { Index := 4, MTU := 1500, Name := "wlan0" }

/-- A read that failed because the socket was closed: a `net.Error` that is
not temporary. -/
def errClosed : Error := { msg := "use of closed network connection", temporary := some false }

/-- A transient read failure: a `net.Error` whose `Temporary()` is true. -/
def errAgain : Error := { msg := "resource temporarily unavailable", temporary := some true }

/-- The `errInvalidConn` of golang.org/x/net, made with `errors.New`: not a
`net.Error`. -/
def errInvalidConn : Error := { msg := "invalid connection", temporary := none }

def errNoDevice : Error := { msg := "no such device", temporary := some false }

/-- What a read on a closed socket hands back. -/
def closedRead : ReadResult :=
  { data := [], n := 0, cm := some { HopLimit := 0, IfIndex := 0, Dst := [] }, src := none,
    err := some errClosed }

/-- A connection driven by a script: the state counts the reads made so far,
the `k`-th read returns the `k`-th entry of `reads` (a closed socket once the
script is used up), `joinErr` and `writeRes` fix the result of a join or a
write by interface index. -/
def scripted (reads : List ReadResult) (joinErr : Int → Option Error)
    (writeRes : Int → Int × Option Error) : conn Nat :=
  { ReadFrom := fun k _ =>
      .ok (k + 1, reads.getD k closedRead)
    WriteTo := fun k _ cm _ => (k, writeRes cm.IfIndex)
    JoinGroup := fun k ifi _ => (k, joinErr ifi.Index) }

/-- A three-byte datagram from 192.168.1.7:5353 reported on interface index
`a`. -/
def datagramOn (a : Int) : ReadResult :=
  { data := [0, 0, 132], n := 3,
    cm := some { HopLimit := 255, IfIndex := a, Dst := mdnsIPv4Addr },
    src := some { IP := IPv4 192 168 1 7, Port := 5353 }, err := none }

/-- A read that failed with `e`: no bytes, no source. -/
def failedRead (e : Error) : ReadResult :=
  { data := [], n := 0, cm := some { HopLimit := 0, IfIndex := 0, Dst := [] }, src := none,
    err := some e }

/-- A connection whose write on interface index 2 is short (one byte) and
whose write on index 4 fails; it hands back one datagram read on index 3. -/
def lossy : conn Nat :=
  scripted [datagramOn 3] (fun _ => none)
    (fun i => if i = 2 then (1, none) else if i = 4 then (0, some errAgain) else (3, none))

/-- A connection on which every write and join succeeds; it hands back one
datagram reported on interface index 7. -/
def stray : conn Nat :=
  scripted [datagramOn 7] (fun _ => none) (fun _ => (3, none))

/-- A connection on which the join for interface index 3 fails. -/
def noJoin3 : conn Nat :=
  scripted [datagramOn 2] (fun i => if i = 3 then some errNoDevice else none) (fun _ => (3, none))

/-- A connection whose reads fail with `errInvalidConn`, twice, and then with
a closed socket. -/
def invalid : conn Nat :=
  scripted [failedRead errInvalidConn, failedRead errInvalidConn] (fun _ => none)
    (fun _ => (3, none))

/-- A connection whose first read fails with a temporary error and whose
second read hands back a datagram on index 2. -/
def flaky : conn Nat :=
  scripted [failedRead errAgain, datagramOn 2] (fun _ => none) (fun _ => (3, none))

/-- A connection whose first read fails because the socket was closed. -/
def closed : conn Nat :=
  scripted [] (fun _ => none) (fun _ => (3, none))

def errNoIPv6 : Error :=
  { msg := "address family not supported by protocol", temporary := some false }

/-- Every call made while opening a socket succeeds. -/
def osOK : Sockets :=
  { ListenPacket := fun _ _ => none
    SetMulticastLoopback := fun _ _ => none
    SetMulticastTTL := fun _ => none
    SetMulticastHopLimit := fun _ => none
    SetControlMessage := fun _ _ _ => none }

/-- A host without IPv6: `ListenPacket` on `"udp6"` fails. -/
def osNoIPv6 : Sockets :=
  { osOK with ListenPacket := fun network _ => if network = "udp6" then some errNoIPv6 else none }

/-- A host on which `ListenPacket` on `"udp4"` fails. -/
def osNoIPv4 : Sockets :=
  { osOK with ListenPacket := fun network _ => if network = "udp4" then some errClosed else none }

/-- An `ipv4.PacketConn` whose reads fail with the temporary error `errAgain`:
as golang.org/x/net does on a failed read, it hands back `0, nil, nil, err`.
Joins succeed unless `joinErr` says otherwise. -/
def failing4 (joinErr : Option Error) : ipv4.PacketConn Nat :=
  { ReadFrom := fun k _ =>
      (k + 1, { data := [], n := 0, cm := none, src := none, err := some errAgain })
    WriteTo := fun k p _ _ => (k, (p.length : Int), none)
    JoinGroup := fun k _ _ => (k, joinErr) }

/-- An `ipv6.PacketConn` with the behaviour of `failing4`. -/
def failing6 (joinErr : Option Error) : ipv6.PacketConn Nat :=
  { ReadFrom := fun k _ =>
      (k + 1, { data := [], n := 0, cm := none, src := none, err := some errAgain })
    WriteTo := fun k p _ _ => (k, (p.length : Int), none)
    JoinGroup := fun k _ _ => (k, joinErr) }

/-- An `ipv4.PacketConn` whose reads succeed with three bytes and no control
message (a datagram without ancillary data). -/
def bare4 : ipv4.PacketConn Nat :=
  { ReadFrom := fun k _ =>
      (k + 1, { data := [0, 0, 132], n := 3, cm := none,
                src := some { IP := IPv4 192 168 1 7, Port := 5353 }, err := none })
    WriteTo := fun k p _ _ => (k, (p.length : Int), none)
    JoinGroup := fun k _ _ => (k, none) }

/-- The buffer `make([]byte, maxPktSize)` of line 84. -/
def buf0 : List Byte := List.replicate maxPktSize 0

/-- The calls of the join phase for the interfaces `eth0`, `eth1`, `wlan0` on
the IPv4 group when every join succeeds. -/
def joins3 : List Event :=
  [Event.log (.joining mdnsUDPAddr4 "eth0"), Event.join eth0 mdnsUDPAddr4 none,
    Event.log (.joining mdnsUDPAddr4 "eth1"), Event.join eth1 mdnsUDPAddr4 none,
    Event.log (.joining mdnsUDPAddr4 "wlan0"), Event.join wlan0 mdnsUDPAddr4 none]

/-- The calls that follow the read of `datagramOn 3` in the run of `listen`
on `lossy` over `eth0`, `eth1`, `wlan0`. -/
def lossyPass : List Event :=
  [Event.log (.received 3 (some { IP := IPv4 192 168 1 7, Port := 5353 }) 3),
    Event.write ((store buf0 [0, 0, 132]).take 3) (outCM eth0) mdnsUDPAddr4 1 none,
    Event.log (.wrote 1 "eth0"),
    Event.write ((store buf0 [0, 0, 132]).take 3) (outCM wlan0) mdnsUDPAddr4 0 (some errAgain),
    Event.log (.writeFailed mdnsUDPAddr4 "wlan0" errAgain)]

/-- The calls that follow the read of `datagramOn 7` in the run of `listen`
on `stray` over `eth0` alone. -/
def strayPass : List Event :=
  [Event.log (.received 7 (some { IP := IPv4 192 168 1 7, Port := 5353 }) 3),
    Event.write ((store buf0 [0, 0, 132]).take 3) (outCM eth0) mdnsUDPAddr4 3 none,
    Event.log (.wrote 3 "eth0")]

/-! ## Lemmas on the relay loop -/

theorem length_store (p data : List Byte) : (store p data).length = p.length := by
  simp [store]
  omega

theorem sliceTo_of_bounds (buf : List Byte) (n : Int) (h0 : 0 ≤ n)
    (h1 : n ≤ (buf.length : Int)) : sliceTo buf n = some (buf.take n.toNat) := by
  simp [sliceTo, h0, h1]

/-- With `buf[:n]` in range, the forwarding loop writes once per interface
whose index is not the inbound one, in order, always the same slice, and does
not fault. -/
theorem forward_writeCalls {σ : Type} (c : conn σ) (g : UDPAddr) (buf : List Byte) (n : Int)
    (cm : controlMsg) (p : List Byte) (hp : sliceTo buf n = some p) :
    ∀ (intfs : List Interface) (s : σ),
      writeCalls (forward c g buf n cm intfs s).2.1
          = (others intfs cm.IfIndex).map (fun i => (p, outCM i, g))
        ∧ (forward c g buf n cm intfs s).2.2 = none := by
  intro intfs
  induction intfs with
  | nil => intro s; simp [forward, writeCalls, others]
  | cons i rest ih =>
    intro s
    by_cases h : i.Index = cm.IfIndex
    · have := ih s
      simpa [forward, h, others] using this
    · rcases hw : c.WriteTo s p (outCM i) g with ⟨s1, n1, e⟩
      have := ih s1
      simp only [outCM] at hw
      cases e with
      | none =>
        simp only [forward, h, if_false, hp, hw]
        simpa [writeCalls, others, h, outCM] using this
      | some err =>
        simp only [forward, h, if_false, hp, hw]
        simpa [writeCalls, others, h, outCM] using this

/-- Whatever `n` is, the forwarding loop makes at most one write per interface
whose index is not the inbound one. -/
theorem forward_writeCalls_le {σ : Type} (c : conn σ) (g : UDPAddr) (buf : List Byte) (n : Int)
    (cm : controlMsg) :
    ∀ (intfs : List Interface) (s : σ),
      (writeCalls (forward c g buf n cm intfs s).2.1).length
        ≤ (others intfs cm.IfIndex).length := by
  intro intfs s
  cases hp : sliceTo buf n with
  | some p => rw [(forward_writeCalls c g buf n cm p hp intfs s).1]; simp
  | none =>
    induction intfs generalizing s with
    | nil => simp [forward, writeCalls]
    | cons i rest ih =>
      by_cases h : i.Index = cm.IfIndex
      · have := ih s
        simpa [forward, h, others] using this
      · simp [forward, h, hp, writeCalls]

/-- The forwarding loop only writes and logs. -/
theorem forward_events {σ : Type} (c : conn σ) (g : UDPAddr) (buf : List Byte) (n : Int)
    (cm : controlMsg) :
    ∀ (intfs : List Interface) (s : σ),
      ∀ e ∈ (forward c g buf n cm intfs s).2.1, e.isRead = false ∧ e.isJoin = false := by
  intro intfs
  induction intfs with
  | nil => intro s e he; simp [forward] at he
  | cons i rest ih =>
    intro s e he
    by_cases h : i.Index = cm.IfIndex
    · simp only [forward, h, if_true] at he
      exact ih s e he
    · cases hp : sliceTo buf n with
      | none => simp [forward, h, hp] at he
      | some p =>
        rcases hw : c.WriteTo s p { HopLimit := 0, IfIndex := i.Index, Dst := [] } g
          with ⟨s1, n1, er⟩
        cases er with
        | none =>
          simp only [forward, h, if_false, hp, hw, List.mem_cons] at he
          rcases he with rfl | rfl | he
          · simp [Event.isRead, Event.isJoin]
          · simp [Event.isRead, Event.isJoin]
          · exact ih s1 e he
        | some err =>
          simp only [forward, h, if_false, hp, hw, List.mem_cons] at he
          rcases he with rfl | rfl | he
          · simp [Event.isRead, Event.isJoin]
          · simp [Event.isRead, Event.isJoin]
          · exact ih s1 e he

/-- A pass whose read succeeds with a control message is the read, the log
line and the forwarding loop on the buffer as the read left it. -/
theorem listenIter_of_read {σ : Type} (c : conn σ) (intfs : List Interface) (g : UDPAddr)
    (s : σ) (buf : List Byte) (s1 : σ) (r : ReadResult) (cm : controlMsg)
    (hread : c.ReadFrom s buf = .ok (s1, r)) (herr : r.err = none) (hcm : r.cm = some cm) :
    (listenIter c intfs g s buf).2.1
        = Event.read r (store buf r.data) :: Event.log (.received cm.IfIndex r.src r.n)
            :: (forward c g (store buf r.data) r.n cm intfs s1).2.1
      ∧ (listenIter c intfs g s buf).1.2 = store buf r.data
      ∧ ((forward c g (store buf r.data) r.n cm intfs s1).2.2 = none →
          (listenIter c intfs g s buf).2.2 = Step.next) := by
  rcases hf : forward c g (store buf r.data) r.n cm intfs s1 with ⟨s2, t, pn⟩
  cases pn with
  | none => simp [listenIter, hread, herr, hcm, hf]
  | some p => simp [listenIter, hread, herr, hcm, hf]

theorem writeCalls_read_log (r : ReadResult) (b : List Byte) (l : LogLine) (t : List Event) :
    writeCalls (Event.read r b :: Event.log l :: t) = writeCalls t := by
  simp [writeCalls]

/-- The `WriteTo` calls of a pass whose read succeeds with `n` in range. -/
theorem listenIter_writeCalls {σ : Type} (c : conn σ) (intfs : List Interface) (g : UDPAddr)
    (s : σ) (buf : List Byte) (s1 : σ) (r : ReadResult) (cm : controlMsg)
    (hread : c.ReadFrom s buf = .ok (s1, r)) (herr : r.err = none) (hcm : r.cm = some cm)
    (hn0 : 0 ≤ r.n) (hn : r.n ≤ (buf.length : Int)) :
    writeCalls (listenIter c intfs g s buf).2.1
        = (others intfs cm.IfIndex).map
            (fun i => ((store buf r.data).take r.n.toNat, outCM i, g))
      ∧ (listenIter c intfs g s buf).2.2 = Step.next := by
  have hp : sliceTo (store buf r.data) r.n = some ((store buf r.data).take r.n.toNat) :=
    sliceTo_of_bounds _ _ hn0 (by rw [length_store]; exact hn)
  have hf := forward_writeCalls c g (store buf r.data) r.n cm _ hp intfs s1
  have hi := listenIter_of_read c intfs g s buf s1 r cm hread herr hcm
  refine ⟨?_, hi.2.2 hf.2⟩
  rw [hi.1, writeCalls_read_log, hf.1]

/-- The number of `WriteTo` calls of a pass whose read succeeds, whatever `n`. -/
theorem listenIter_writeCalls_le {σ : Type} (c : conn σ) (intfs : List Interface) (g : UDPAddr)
    (s : σ) (buf : List Byte) (s1 : σ) (r : ReadResult) (cm : controlMsg)
    (hread : c.ReadFrom s buf = .ok (s1, r)) (herr : r.err = none) (hcm : r.cm = some cm) :
    (writeCalls (listenIter c intfs g s buf).2.1).length ≤ (others intfs cm.IfIndex).length := by
  have hi := listenIter_of_read c intfs g s buf s1 r cm hread herr hcm
  rw [hi.1, writeCalls_read_log]
  exact forward_writeCalls_le c g (store buf r.data) r.n cm intfs s1

theorem others_length_le (intfs : List Interface) (a : Int) :
    (others intfs a).length ≤ intfs.length := by
  simpa [others] using List.length_filter_le _ intfs

theorem others_length_lt (intfs : List Interface) (a : Int)
    (h : a ∈ intfs.map (fun i => i.Index)) : (others intfs a).length < intfs.length := by
  rw [others, List.length_filter_lt_length_iff_exists]
  rcases List.mem_map.1 h with ⟨i, hi, rfl⟩
  exact ⟨i, hi, by simp⟩

theorem length_buf0 : buf0.length = maxPktSize := by
  simp [buf0]

theorem take_store (p data : List Byte) (n : Nat) (h1 : n ≤ data.length)
    (h2 : data.length ≤ p.length) : (store p data).take n = data.take n := by
  simp only [store, List.take_take]
  rw [Nat.min_eq_left (by omega), List.take_append_of_le_length h1]

/-! ## Lemmas on the join phase and the loop -/

theorem split_of_not_mem_left {α : Type} {a b pre post : List α} {x : α}
    (h : pre ++ x :: post = a ++ b) (hx : x ∉ a) :
    ∃ a', pre = a ++ a' ∧ b = a' ++ x :: post := by
  rcases List.append_eq_append_iff.1 h with ⟨a', ha, hb⟩ | ⟨c', hc, hb⟩
  · cases a' with
    | nil => exact ⟨[], by simpa using ha.symm, by simpa using hb.symm⟩
    | cons y ys =>
      simp only [List.cons_append, List.cons.injEq] at hb
      exact absurd (by rw [ha, hb.1]; simp) hx
  · exact ⟨c', hc, hb⟩

theorem joinAll_events {σ : Type} (c : conn σ) (g : UDPAddr) :
    ∀ (intfs : List Interface) (s : σ),
      ∀ e ∈ (joinAll c g intfs s).2.1, e.isRead = false ∧ e.isWrite = false := by
  intro intfs
  induction intfs with
  | nil => intro s e he; simp [joinAll] at he
  | cons i rest ih =>
    intro s e he
    rcases hj : c.JoinGroup s i g with ⟨s1, er⟩
    cases er with
    | some err =>
      simp only [joinAll, hj, List.mem_cons, List.mem_singleton, List.not_mem_nil, or_false] at he
      rcases he with rfl | rfl <;> simp [Event.isRead, Event.isWrite]
    | none =>
      simp only [joinAll, hj, List.mem_cons] at he
      rcases he with rfl | rfl | he
      · simp [Event.isRead, Event.isWrite]
      · simp [Event.isRead, Event.isWrite]
      · exact ih s1 e he

/-- When no join fails, every interface was joined, in order, on the group. -/
theorem joinAll_ok {σ : Type} (c : conn σ) (g : UDPAddr) :
    ∀ (intfs : List Interface) (s : σ), (joinAll c g intfs s).2.2 = none →
      joinCalls (joinAll c g intfs s).2.1 = intfs.map (fun i => (i, g))
        ∧ ∀ ifi g' err, Event.join ifi g' err ∈ (joinAll c g intfs s).2.1 → err = none := by
  intro intfs
  induction intfs with
  | nil => intro s _; simp [joinAll, joinCalls]
  | cons i rest ih =>
    intro s hr
    rcases hj : c.JoinGroup s i g with ⟨s1, er⟩
    cases er with
    | some err => simp [joinAll, hj] at hr
    | none =>
      simp only [joinAll, hj] at hr ⊢
      have h := ih s1 hr
      refine ⟨?_, ?_⟩
      · simpa [joinCalls] using h.1
      · intro ifi g' err hmem
        simp only [List.mem_cons] at hmem
        rcases hmem with hmem | hmem | hmem
        · cases hmem
        · cases hmem; rfl
        · exact h.2 ifi g' err hmem

/-- When a join fails, it is the last call made, and the joins made are those
of an initial segment of the interface list. -/
theorem joinAll_fail {σ : Type} (c : conn σ) (g : UDPAddr) :
    ∀ (intfs : List Interface) (s : σ) (e0 : Error), (joinAll c g intfs s).2.2 = some e0 →
      ∃ t0 ifi k, (joinAll c g intfs s).2.1 = t0 ++ [Event.join ifi g (some e0)]
        ∧ (∀ ifi' g' err, Event.join ifi' g' err ∈ t0 → err = none)
        ∧ k < intfs.length
        ∧ joinCalls (joinAll c g intfs s).2.1 = (intfs.take (k + 1)).map (fun i => (i, g)) := by
  intro intfs
  induction intfs with
  | nil => intro s e0 hr; simp [joinAll] at hr
  | cons i rest ih =>
    intro s e0 hr
    rcases hj : c.JoinGroup s i g with ⟨s1, er⟩
    cases er with
    | some err =>
      simp only [joinAll, hj, Option.some.injEq] at hr ⊢
      subst hr
      exact ⟨[Event.log (.joining g i.Name)], i, 0, by simp, by simp, by simp, by simp [joinCalls]⟩
    | none =>
      simp only [joinAll, hj] at hr ⊢
      obtain ⟨t0, ifi, k, ht, hnone, hk, hcalls⟩ := ih s1 e0 hr
      refine ⟨Event.log (.joining g i.Name) :: Event.join i g none :: t0, ifi, k + 1, ?_, ?_, ?_, ?_⟩
      · simp [ht]
      · intro ifi' g' err hmem
        simp only [List.mem_cons] at hmem
        rcases hmem with hmem | hmem | hmem
        · cases hmem
        · cases hmem; rfl
        · exact hnone ifi' g' err hmem
      · simpa using hk
      · simpa [joinCalls] using hcalls

/-- A pass starts with the `ReadFrom` call and makes no join. -/
theorem listenIter_events {σ : Type} (c : conn σ) (intfs : List Interface) (g : UDPAddr)
    (s : σ) (buf : List Byte) :
    (∃ e t, (listenIter c intfs g s buf).2.1 = e :: t ∧ e.isRead = true)
      ∧ ∀ e ∈ (listenIter c intfs g s buf).2.1, e.isJoin = false := by
  cases hread : c.ReadFrom s buf with
  | error p => simp [listenIter, hread, Event.isRead, Event.isJoin]
  | ok v =>
    rcases v with ⟨s1, r⟩
    cases herr : r.err with
    | some err =>
      cases ht : err.temporary with
      | none => simp [listenIter, hread, herr, ht, Event.isRead, Event.isJoin]
      | some b => cases b <;> simp [listenIter, hread, herr, ht, Event.isRead, Event.isJoin]
    | none =>
      cases hcm : r.cm with
      | none => simp [listenIter, hread, herr, hcm, Event.isRead, Event.isJoin]
      | some cm =>
        have hi := listenIter_of_read c intfs g s buf s1 r cm hread herr hcm
        have hf := forward_events c g (store buf r.data) r.n cm intfs s1
        rw [hi.1]
        refine ⟨⟨_, _, rfl, rfl⟩, ?_⟩
        intro e he
        simp only [List.mem_cons] at he
        rcases he with rfl | rfl | he
        · rfl
        · rfl
        · exact (hf e he).2

theorem listenLoop_succ {σ : Type} (c : conn σ) (intfs : List Interface) (g : UDPAddr)
    (fuel : Nat) (s : σ) (buf : List Byte) :
    listenLoop c intfs g (fuel + 1) s buf
      = match listenIter c intfs g s buf with
        | ((s1, buf1), t, Step.next) =>
          ((t ++ (listenLoop c intfs g fuel s1 buf1).1), (listenLoop c intfs g fuel s1 buf1).2)
        | (_, t, Step.ret err) => (t, Outcome.returned err)
        | (_, t, Step.panic p) => (t, Outcome.panicked p) := rfl

/-- The loop makes no join. -/
theorem listenLoop_events {σ : Type} (c : conn σ) (intfs : List Interface) (g : UDPAddr) :
    ∀ (fuel : Nat) (s : σ) (buf : List Byte),
      ∀ e ∈ (listenLoop c intfs g fuel s buf).1, e.isJoin = false := by
  intro fuel
  induction fuel with
  | zero => intro s buf e he; simp [listenLoop] at he
  | succ k ih =>
    intro s buf e he
    have hi := (listenIter_events c intfs g s buf).2
    rw [listenLoop_succ] at he
    rcases hit : listenIter c intfs g s buf with ⟨⟨s1, buf1⟩, t, st⟩
    rw [hit] at he hi
    cases st with
    | next =>
      simp only [List.mem_append] at he
      rcases he with he | he
      · exact hi e he
      · exact ih s1 buf1 e he
    | ret err => exact hi e he
    | panic p => exact hi e he

/-- With one pass or more to go, the loop starts with a `ReadFrom` call. -/
theorem listenLoop_head {σ : Type} (c : conn σ) (intfs : List Interface) (g : UDPAddr)
    (fuel : Nat) (s : σ) (buf : List Byte) :
    ∃ e t, (listenLoop c intfs g (fuel + 1) s buf).1 = e :: t ∧ e.isRead = true := by
  obtain ⟨e, t, ht, he⟩ := (listenIter_events c intfs g s buf).1
  rw [listenLoop_succ]
  rcases hit : listenIter c intfs g s buf with ⟨⟨s1, buf1⟩, t', st⟩
  rw [hit] at ht
  simp only at ht
  subst ht
  cases st with
  | next => exact ⟨e, t ++ (listenLoop c intfs g fuel s1 buf1).1, by simp, he⟩
  | ret err => exact ⟨e, t, rfl, he⟩
  | panic p => exact ⟨e, t, rfl, he⟩

theorem joinCalls_eq_nil_of_events (t : List Event) (h : ∀ e ∈ t, e.isJoin = false) :
    joinCalls t = [] := by
  simp only [joinCalls, List.filterMap_eq_nil_iff]
  intro e he
  have := h e he
  cases e <;> simp_all [Event.isJoin]

theorem joinCalls_append (a b : List Event) : joinCalls (a ++ b) = joinCalls a ++ joinCalls b := by
  simp [joinCalls]

/-- The shape of a pass: the read faults and the pass is that fault; or the
read returns, the pass starts with it and makes no other read, and a
`net.Error` that is not temporary ends it at once with `return err`. -/
theorem listenIter_cases {σ : Type} (c : conn σ) (intfs : List Interface) (g : UDPAddr)
    (s : σ) (buf : List Byte) :
    (∃ p, listenIter c intfs g s buf = ((s, buf), [Event.readFault p], Step.panic p))
      ∨ ∃ s1 s2 r t st, c.ReadFrom s buf = .ok (s1, r)
          ∧ listenIter c intfs g s buf
              = ((s2, store buf r.data), Event.read r (store buf r.data) :: t, st)
          ∧ (∀ x ∈ t, x.isRead = false)
          ∧ ∀ e, r.err = some e → e.temporary = some false →
              t = [Event.log (.readFailed e)] ∧ st = Step.ret e := by
  cases hread : c.ReadFrom s buf with
  | error p => exact Or.inl ⟨p, by simp [listenIter, hread]⟩
  | ok v =>
    rcases v with ⟨s1, r⟩
    right
    cases herr : r.err with
    | some err =>
      cases ht : err.temporary with
      | none =>
        refine ⟨s1, s1, r, [Event.log (.readFailed err)], Step.next, rfl, ?_, ?_, ?_⟩
        · simp [listenIter, hread, herr, ht]
        · simp [Event.isRead]
        · intro e he hf
          rw [herr] at he
          cases he
          rw [ht] at hf
          cases hf
      | some b =>
        cases b with
        | false =>
          refine ⟨s1, s1, r, [Event.log (.readFailed err)], Step.ret err, rfl, ?_, ?_, ?_⟩
          · simp [listenIter, hread, herr, ht]
          · simp [Event.isRead]
          · intro e he _
            rw [herr] at he
            cases he
            exact ⟨rfl, rfl⟩
        | true =>
          refine ⟨s1, s1, r, [Event.log (.readFailed err)], Step.next, rfl, ?_, ?_, ?_⟩
          · simp [listenIter, hread, herr, ht]
          · simp [Event.isRead]
          · intro e he hf
            rw [herr] at he
            cases he
            rw [ht] at hf
            cases hf
    | none =>
      cases hcm : r.cm with
      | none =>
        refine ⟨s1, s1, r, [], Step.panic Panic.nilDeref, rfl, ?_, ?_, ?_⟩
        · simp [listenIter, hread, herr, hcm]
        · simp
        · intro e he
          rw [herr] at he
          cases he
      | some cm =>
        have hf := forward_events c g (store buf r.data) r.n cm intfs s1
        rcases hfw : forward c g (store buf r.data) r.n cm intfs s1 with ⟨s2, t, pn⟩
        rw [hfw] at hf
        simp only at hf
        have hrest : ∀ x ∈ Event.log (.received cm.IfIndex r.src r.n) :: t, x.isRead = false := by
          intro x hx
          simp only [List.mem_cons] at hx
          rcases hx with rfl | hx
          · rfl
          · exact (hf x hx).1
        cases pn with
        | none =>
          refine ⟨s1, s2, r, _, Step.next, rfl, ?_, hrest, ?_⟩
          · simp [listenIter, hread, herr, hcm, hfw]
          · intro e he
            rw [herr] at he
            cases he
        | some p =>
          refine ⟨s1, s2, r, _, Step.panic p, rfl, ?_, hrest, ?_⟩
          · simp [listenIter, hread, herr, hcm, hfw]
          · intro e he
            rw [herr] at he
            cases he

theorem listenLoop_nil_or_read {σ : Type} (c : conn σ) (intfs : List Interface) (g : UDPAddr)
    (fuel : Nat) (s : σ) (buf : List Byte) :
    (listenLoop c intfs g fuel s buf).1 = []
      ∨ ∃ e t, (listenLoop c intfs g fuel s buf).1 = e :: t ∧ e.isRead = true := by
  cases fuel with
  | zero => exact Or.inl rfl
  | succ k => exact Or.inr (listenLoop_head c intfs g k s buf)

theorem untilRead_append (t rest : List Event) (h : ∀ x ∈ t, x.isRead = false)
    (hrest : rest = [] ∨ ∃ e r, rest = e :: r ∧ e.isRead = true) :
    untilRead (t ++ rest) = t := by
  induction t with
  | nil =>
    rcases hrest with rfl | ⟨e, r, rfl, he⟩
    · rfl
    · simp [untilRead, List.takeWhile, he]
  | cons x xs ih =>
    have hx : x.isRead = false := h x (by simp)
    have := ih (fun y hy => h y (by simp [hy]))
    simp only [untilRead] at this ⊢
    simp [List.takeWhile, hx, this]

theorem writeCalls_read (r : ReadResult) (b : List Byte) (t : List Event) :
    writeCalls (Event.read r b :: t) = writeCalls t := by
  simp [writeCalls]

/-- Every read of a run of the loop is the read of one pass, made with a
buffer of `maxPktSize` bytes; the calls of that pass are the read and what
follows it in the run up to the next read. -/
theorem listenLoop_pass {σ : Type} (c : conn σ) (intfs : List Interface) (g : UDPAddr) :
    ∀ (fuel : Nat) (s : σ) (buf : List Byte) (pre : List Event) (r : ReadResult)
      (b : List Byte) (post : List Event),
      buf.length = maxPktSize →
      (listenLoop c intfs g fuel s buf).1 = pre ++ Event.read r b :: post →
        ∃ s0 b0 s1, b0.length = maxPktSize ∧ c.ReadFrom s0 b0 = .ok (s1, r)
          ∧ b = store b0 r.data
          ∧ (listenIter c intfs g s0 b0).2.1 = Event.read r b :: untilRead post := by
  intro fuel
  induction fuel with
  | zero =>
    intro s buf pre r b post _ hdec
    simp [listenLoop] at hdec
  | succ k ih =>
    intro s buf pre r b post hlen hdec
    rw [listenLoop_succ] at hdec
    rcases listenIter_cases c intfs g s buf with
      ⟨p, hit⟩ | ⟨s1, s2, r0, t, st, hread, hit, hnr, _⟩
    · rw [hit] at hdec
      simp only at hdec
      cases pre with
      | nil => simp at hdec
      | cons x xs =>
        have := congrArg List.length hdec
        simp at this
    · rw [hit] at hdec
      have hnot : Event.read r b ∉ t := fun hm => by
        have := hnr _ hm
        simp [Event.isRead] at this
      have hdone : ∀ rest, (rest = [] ∨ ∃ e r', rest = e :: r' ∧ e.isRead = true) →
          Event.read r0 (store buf r0.data) :: (t ++ rest) = Event.read r b :: post →
            ∃ s0 b0 s1, b0.length = maxPktSize ∧ c.ReadFrom s0 b0 = .ok (s1, r)
              ∧ b = store b0 r.data
              ∧ (listenIter c intfs g s0 b0).2.1 = Event.read r b :: untilRead post := by
        intro rest hrest heq
        simp only [List.cons.injEq, Event.read.injEq] at heq
        obtain ⟨⟨hr, hb⟩, hpost⟩ := heq
        subst hr
        refine ⟨s, buf, s1, hlen, hread, hb.symm, ?_⟩
        rw [hit, ← hpost, untilRead_append t rest hnr hrest, ← hb]
      cases st with
      | next =>
        simp only at hdec
        cases pre with
        | nil =>
          exact hdone _ (listenLoop_nil_or_read c intfs g k s2 _) (by simpa using hdec)
        | cons x xs =>
          simp only [List.cons_append, List.cons.injEq] at hdec
          obtain ⟨a', _, hrest⟩ := split_of_not_mem_left hdec.2.symm hnot
          exact ih s2 (store buf r0.data) a' r b post (by rw [length_store]; exact hlen) hrest
      | ret e' =>
        simp only at hdec
        cases pre with
        | nil => exact hdone [] (Or.inl rfl) (by simpa using hdec)
        | cons x xs =>
          simp only [List.cons_append, List.cons.injEq] at hdec
          exact absurd (by rw [hdec.2]; simp) hnot
      | panic p =>
        simp only at hdec
        cases pre with
        | nil => exact hdone [] (Or.inl rfl) (by simpa using hdec)
        | cons x xs =>
          simp only [List.cons_append, List.cons.injEq] at hdec
          exact absurd (by rw [hdec.2]; simp) hnot

/-- Every read of a run of `listen` is the read of one pass of its loop, made
with a buffer of `maxPktSize` bytes; the calls of that pass are the read and
what follows it in the run up to the next read. -/
theorem listen_pass {σ : Type} (m : MDNSProxy) (c : conn σ) (g : UDPAddr) (s : σ) (fuel : Nat)
    (pre : List Event) (r : ReadResult) (b : List Byte) (post : List Event)
    (hrun : (m.listen c g s fuel).1 = pre ++ Event.read r b :: post) :
    ∃ s0 b0 s1, b0.length = maxPktSize ∧ c.ReadFrom s0 b0 = .ok (s1, r)
      ∧ b = store b0 r.data
      ∧ (listenIter c m.intfs g s0 b0).2.1 = Event.read r b :: untilRead post := by
  rcases hj : joinAll c g m.intfs s with ⟨s1, jt, jr⟩
  have hev := joinAll_events c g m.intfs s
  rw [hj] at hev
  simp only at hev
  have hnot : Event.read r b ∉ jt := fun hm => by
    have := (hev _ hm).1
    simp [Event.isRead] at this
  cases jr with
  | some e0 =>
    simp only [MDNSProxy.listen, hj] at hrun
    exact absurd (by rw [hrun]; simp) hnot
  | none =>
    simp only [MDNSProxy.listen, hj] at hrun
    obtain ⟨a', _, hrest⟩ := split_of_not_mem_left hrun.symm hnot
    exact listenLoop_pass c m.intfs g fuel s1 _ a' r b post (by simp) hrest

/-- Wherever in a run of the loop a read returns a `net.Error` that is not
temporary, the log line of that error is the last call of the run and the
loop returns that error. -/
theorem listenLoop_fatal {σ : Type} (c : conn σ) (intfs : List Interface) (g : UDPAddr) :
    ∀ (fuel : Nat) (s : σ) (buf : List Byte) (pre : List Event) (r : ReadResult)
      (b : List Byte) (post : List Event) (e : Error),
      (listenLoop c intfs g fuel s buf).1 = pre ++ Event.read r b :: post →
      r.err = some e → e.temporary = some false →
        post = [Event.log (.readFailed e)]
          ∧ (listenLoop c intfs g fuel s buf).2 = Outcome.returned e := by
  intro fuel
  induction fuel with
  | zero =>
    intro s buf pre r b post e hdec
    simp [listenLoop] at hdec
  | succ k ih =>
    intro s buf pre r b post e hdec herr htemp
    rw [listenLoop_succ] at hdec ⊢
    rcases listenIter_cases c intfs g s buf with
      ⟨p, hit⟩ | ⟨s1, s2, r0, t, st, _, hit, hnr, hfatal⟩
    · rw [hit] at hdec
      simp only at hdec
      cases pre with
      | nil => simp at hdec
      | cons x xs =>
        have := congrArg List.length hdec
        simp at this
    · rw [hit] at hdec ⊢
      have hnot : Event.read r b ∉ t := fun hm => by
        have := hnr _ hm
        simp [Event.isRead] at this
      cases st with
      | next =>
        simp only at hdec ⊢
        cases pre with
        | nil =>
          simp only [List.nil_append, List.cons_append, List.cons.injEq, Event.read.injEq] at hdec
          obtain ⟨⟨hr, _⟩, _⟩ := hdec
          subst hr
          have := (hfatal e herr htemp).2
          cases this
        | cons x xs =>
          simp only [List.cons_append, List.cons.injEq] at hdec
          obtain ⟨a', _, hrest⟩ := split_of_not_mem_left hdec.2.symm hnot
          exact ih s2 (store buf r0.data) a' r b post e hrest herr htemp
      | ret e' =>
        simp only at hdec ⊢
        cases pre with
        | nil =>
          simp only [List.nil_append, List.cons.injEq, Event.read.injEq] at hdec
          obtain ⟨⟨hr, _⟩, hpost⟩ := hdec
          subst hr
          obtain ⟨ht, hst⟩ := hfatal e herr htemp
          cases hst
          exact ⟨by rw [← hpost, ht], rfl⟩
        | cons x xs =>
          simp only [List.cons_append, List.cons.injEq] at hdec
          exact absurd (by rw [hdec.2]; simp) hnot
      | panic p =>
        simp only at hdec ⊢
        cases pre with
        | nil =>
          simp only [List.nil_append, List.cons.injEq, Event.read.injEq] at hdec
          obtain ⟨⟨hr, _⟩, _⟩ := hdec
          subst hr
          have := (hfatal e herr htemp).2
          cases this
        | cons x xs =>
          simp only [List.cons_append, List.cons.injEq] at hdec
          exact absurd (by rw [hdec.2]; simp) hnot

theorem listen_eq {σ : Type} (m : MDNSProxy) (c : conn σ) (g : UDPAddr) (s : σ) (fuel : Nat) :
    m.listen c g s fuel
      = match joinAll c g m.intfs s with
        | (_, t, some err) => (t, Outcome.returned err)
        | (s1, t, none) =>
          ((t ++ (listenLoop c m.intfs g fuel s1 buf0).1),
            (listenLoop c m.intfs g fuel s1 buf0).2) := rfl

/-- The `WriteTo` calls made for a datagram read successfully with `n` in
range, anywhere in a run of `listen`. -/
theorem listen_pass_writeCalls {σ : Type} (m : MDNSProxy) (c : conn σ) (g : UDPAddr) (s : σ)
    (fuel : Nat) (pre : List Event) (r : ReadResult) (b : List Byte) (post : List Event)
    (cm : controlMsg) (hrun : (m.listen c g s fuel).1 = pre ++ Event.read r b :: post)
    (herr : r.err = none) (hcm : r.cm = some cm) (hn0 : 0 ≤ r.n)
    (hn : r.n ≤ (maxPktSize : Int)) :
    writeCalls (untilRead post)
        = (others m.intfs cm.IfIndex).map (fun i => (b.take r.n.toNat, outCM i, g))
      ∧ b.length = maxPktSize := by
  obtain ⟨s0, b0, s1, hlen, hread, hb, hit⟩ := listen_pass m c g s fuel pre r b post hrun
  have h := listenIter_writeCalls c m.intfs g s0 b0 s1 r cm hread herr hcm hn0
    (by rw [hlen]; exact hn)
  rw [hit, writeCalls_read, ← hb] at h
  exact ⟨h.1, by rw [hb, length_store, hlen]⟩

/-- The number of `WriteTo` calls made for a datagram read successfully,
anywhere in a run of `listen`, whatever `n`. -/
theorem listen_pass_writeCalls_le {σ : Type} (m : MDNSProxy) (c : conn σ) (g : UDPAddr) (s : σ)
    (fuel : Nat) (pre : List Event) (r : ReadResult) (b : List Byte) (post : List Event)
    (cm : controlMsg) (hrun : (m.listen c g s fuel).1 = pre ++ Event.read r b :: post)
    (herr : r.err = none) (hcm : r.cm = some cm) :
    (writeCalls (untilRead post)).length ≤ (others m.intfs cm.IfIndex).length := by
  obtain ⟨s0, b0, s1, _, hread, _, hit⟩ := listen_pass m c g s fuel pre r b post hrun
  have h := listenIter_writeCalls_le c m.intfs g s0 b0 s1 r cm hread herr hcm
  rw [hit, writeCalls_read] at h
  exact h

theorem sliceTo_datagram :
    sliceTo (store buf0 [0, 0, 132]) 3 = some ((store buf0 [0, 0, 132]).take 3) := by
  simp [sliceTo, length_store, length_buf0, maxPktSize]

/-- The run of `listen` on `lossy` over `eth0`, `eth1`, `wlan0`, observed for
one pass. -/
theorem run_lossy :
    ((MDNSProxy.mk [eth0, eth1, wlan0] ⟨false, false⟩).listen lossy mdnsUDPAddr4 0 1).1
      = joins3 ++ Event.read (datagramOn 3) (store buf0 [0, 0, 132]) :: lossyPass := by
  simp [listen_eq, joinAll, listenLoop, listenIter, forward, sliceTo_datagram,
    lossy, scripted, datagramOn, eth0, eth1, wlan0, outCM, joins3, lossyPass]

/-- The run of `listen` on `stray` over `eth0` alone, observed for one pass. -/
theorem run_stray :
    ((MDNSProxy.mk [eth0] ⟨false, false⟩).listen stray mdnsUDPAddr4 0 1).1
      = [Event.log (.joining mdnsUDPAddr4 "eth0"), Event.join eth0 mdnsUDPAddr4 none]
          ++ Event.read (datagramOn 7) (store buf0 [0, 0, 132]) :: strayPass := by
  simp [listen_eq, joinAll, listenLoop, listenIter, forward, sliceTo_datagram,
    stray, scripted, datagramOn, eth0, outCM, strayPass]

/-! ## The claims on one datagram -/

/-- C1 (split horizon): wherever in a run of `listen` a datagram is read
successfully (byte count within the buffer) with a control message reporting
inbound index `cm.IfIndex`, the outbound control messages of the `WriteTo`
calls made for it (those up to the next read) are exactly those of the
configured interfaces whose `Index` is not the inbound one, in configured
order, and no write carries the inbound index. The connection `c`, and with it
the result of every write, is arbitrary: a failed write stops nothing. -/
theorem listen_split_horizon {σ : Type} (m : MDNSProxy) (c : conn σ) (g : UDPAddr) (s : σ)
    (fuel : Nat) (pre : List Event) (r : ReadResult) (b : List Byte) (post : List Event)
    (cm : controlMsg) (hrun : (m.listen c g s fuel).1 = pre ++ Event.read r b :: post)
    (herr : r.err = none) (hcm : r.cm = some cm) (hn0 : 0 ≤ r.n)
    (hn : r.n ≤ (maxPktSize : Int)) :
    (writeCalls (untilRead post)).map (fun w => w.2.1)
        = (m.intfs.filter (fun i => decide (i.Index ≠ cm.IfIndex))).map
            (fun i => ({ HopLimit := 0, IfIndex := i.Index, Dst := [] } : controlMsg))
      ∧ ∀ w ∈ writeCalls (untilRead post), w.2.1.IfIndex ≠ cm.IfIndex := by
  have h := (listen_pass_writeCalls m c g s fuel pre r b post cm hrun herr hcm hn0 hn).1
  refine ⟨?_, ?_⟩
  · rw [h]
    simp [others, outCM, Function.comp_def]
  · intro w hw
    rw [h] at hw
    rcases List.mem_map.1 hw with ⟨i, hi, rfl⟩
    simpa [others, outCM] using (List.mem_filter.1 hi).2

/-- C1 at a concrete run: three interfaces (indexes 2, 3, 4), a datagram read
on index 3, the write on index 2 short and the write on index 4 failing: the
writes go to 2 and then to 4. -/
theorem listen_split_horizon_witness :
    (writeCalls (untilRead lossyPass)).map (fun w => w.2.1.IfIndex) = [2, 4] := by
  have h := listen_split_horizon (MDNSProxy.mk [eth0, eth1, wlan0] ⟨false, false⟩) lossy
    mdnsUDPAddr4 0 1 joins3 (datagramOn 3) (store buf0 [0, 0, 132]) lossyPass
    { HopLimit := 255, IfIndex := 3, Dst := mdnsIPv4Addr } run_lossy rfl rfl
    (by decide) (by decide)
  have h1 := congrArg (List.map (fun cm : controlMsg => cm.IfIndex)) h.1
  rw [List.map_map] at h1
  exact h1.trans (by decide)

/-- C2 (payload): wherever in a run of `listen` a read returns `n` bytes,
`0 ≤ n ≤ 9000`, every `WriteTo` call made for that datagram is given the first
`n` bytes of the buffer as the read left it (`b`, 9000 bytes long, so that the
slice has exactly `n` bytes) and is addressed to the group address, one such
call per interface not skipped, whatever the earlier writes returned. -/
theorem listen_forwards_payload {σ : Type} (m : MDNSProxy) (c : conn σ) (g : UDPAddr) (s : σ)
    (fuel : Nat) (pre : List Event) (r : ReadResult) (b : List Byte) (post : List Event)
    (cm : controlMsg) (hrun : (m.listen c g s fuel).1 = pre ++ Event.read r b :: post)
    (herr : r.err = none) (hcm : r.cm = some cm) (hn0 : 0 ≤ r.n) (hn : r.n ≤ (9000 : Int)) :
    (writeCalls (untilRead post)).map (fun w => (w.1, w.2.2))
        = List.replicate (m.intfs.filter (fun i => decide (i.Index ≠ cm.IfIndex))).length
            (b.take r.n.toNat, g)
      ∧ b.length = 9000
      ∧ ((b.take r.n.toNat).length : Int) = r.n := by
  have h := listen_pass_writeCalls m c g s fuel pre r b post cm hrun herr hcm hn0 hn
  have hlen : b.length = 9000 := h.2
  refine ⟨?_, hlen, ?_⟩
  · rw [h.1, List.map_map]
    simp [others, Function.comp_def, List.eq_replicate_iff]
  · rw [List.length_take, hlen]
    omega

/-- C2 at a concrete run: the first write returns 1 (fewer than the 3 bytes
read), the second fails; both were given the same three bytes and the group
address. -/
theorem listen_forwards_payload_witness :
    (writeCalls (untilRead lossyPass)).map (fun w => (w.1, w.2.2))
      = [([0, 0, 132], mdnsUDPAddr4), ([0, 0, 132], mdnsUDPAddr4)] := by
  have h := listen_forwards_payload (MDNSProxy.mk [eth0, eth1, wlan0] ⟨false, false⟩) lossy
    mdnsUDPAddr4 0 1 joins3 (datagramOn 3) (store buf0 [0, 0, 132]) lossyPass
    { HopLimit := 255, IfIndex := 3, Dst := mdnsIPv4Addr } run_lossy rfl rfl
    (by decide) (by decide)
  rw [h.1]
  have ht : (store buf0 [0, 0, 132]).take (datagramOn 3).n.toNat = [0, 0, 132] := by
    rw [take_store buf0 _ _ (by decide) (by rw [length_buf0]; decide)]
    decide
  rw [ht]
  decide

/-- C3 as stated fails: one configured interface (index 2) and a datagram
reported on index 7, which no configured interface has: `listen` issues one
write for it, more than `N - 1 = 0`. -/
theorem listen_unconfigured_inbound_written :
    ((MDNSProxy.mk [eth0] ⟨false, false⟩).listen stray mdnsUDPAddr4 0 1).1
        = [Event.log (.joining mdnsUDPAddr4 "eth0"), Event.join eth0 mdnsUDPAddr4 none]
            ++ Event.read (datagramOn 7) (store buf0 [0, 0, 132]) :: strayPass
      ∧ (datagramOn 7).err = none
      ∧ (writeCalls (untilRead strayPass)).map (fun w => w.2.1.IfIndex) = [2]
      ∧ ¬ ((writeCalls (untilRead strayPass)).length ≤ [eth0].length - 1) :=
  ⟨run_stray, rfl, rfl, by decide⟩

/-- C3 (amended): wherever in a run of `listen` a datagram is read
successfully, at most one write is issued for it per configured interface
whose `Index` is not the reported inbound index (exactly that many when
`0 ≤ n ≤ 9000`): at most `N`; at most `N - 1` when the inbound index is the
`Index` of a configured interface; none when `N = 0` or when every configured
interface has the inbound index. -/
theorem listen_write_count {σ : Type} (m : MDNSProxy) (c : conn σ) (g : UDPAddr) (s : σ)
    (fuel : Nat) (pre : List Event) (r : ReadResult) (b : List Byte) (post : List Event)
    (cm : controlMsg) (hrun : (m.listen c g s fuel).1 = pre ++ Event.read r b :: post)
    (herr : r.err = none) (hcm : r.cm = some cm) :
    (writeCalls (untilRead post)).length ≤ m.intfs.length
      ∧ (cm.IfIndex ∈ m.intfs.map (fun i => i.Index) →
          (writeCalls (untilRead post)).length ≤ m.intfs.length - 1)
      ∧ (m.intfs.length = 0 → (writeCalls (untilRead post)).length = 0)
      ∧ ((∀ i ∈ m.intfs, i.Index = cm.IfIndex) → (writeCalls (untilRead post)).length = 0)
      ∧ (0 ≤ r.n → r.n ≤ (9000 : Int) →
          (writeCalls (untilRead post)).length
            = (m.intfs.filter (fun i => decide (i.Index ≠ cm.IfIndex))).length)
      ∧ (writeCalls (untilRead post)).length
          ≤ (m.intfs.filter (fun i => decide (i.Index ≠ cm.IfIndex))).length := by
  have hle := listen_pass_writeCalls_le m c g s fuel pre r b post cm hrun herr hcm
  have h1 := others_length_le m.intfs cm.IfIndex
  refine ⟨by omega, ?_, ?_, ?_, ?_, hle⟩
  · intro hmem
    have := others_length_lt m.intfs cm.IfIndex hmem
    omega
  · intro h0
    omega
  · intro hall
    have : others m.intfs cm.IfIndex = [] := by
      simp only [others, List.filter_eq_nil_iff]
      intro i hi
      simp [hall i hi]
    rw [this] at hle
    simpa using hle
  · intro hn0 hn
    rw [(listen_pass_writeCalls m c g s fuel pre r b post cm hrun herr hcm hn0 hn).1]
    simp [others]

/-- C3 (amended) at a concrete run: with interfaces 2, 3, 4 and a datagram
read on index 3 there are two writes, at most `N - 1 = 2`. -/
theorem listen_write_count_witness :
    (writeCalls (untilRead lossyPass)).length ≤ 3 - 1
      ∧ (writeCalls (untilRead lossyPass)).length = 2 := by
  have h := listen_write_count (MDNSProxy.mk [eth0, eth1, wlan0] ⟨false, false⟩) lossy
    mdnsUDPAddr4 0 1 joins3 (datagramOn 3) (store buf0 [0, 0, 132]) lossyPass
    { HopLimit := 255, IfIndex := 3, Dst := mdnsIPv4Addr } run_lossy rfl rfl
  exact ⟨h.2.1 (by decide), (h.2.2.2.2.1 (by decide) (by decide)).trans (by decide)⟩

/-! ## Lemmas on a temporary read error -/

/-- A run of the loop that made no call is one that was observed for no pass:
it is still running. -/
theorem listenLoop_nil_running_or_read {σ : Type} (c : conn σ) (intfs : List Interface)
    (g : UDPAddr) (fuel : Nat) (s : σ) (buf : List Byte) :
    ((listenLoop c intfs g fuel s buf).1 = []
        ∧ (listenLoop c intfs g fuel s buf).2 = Outcome.running)
      ∨ ∃ e t, (listenLoop c intfs g fuel s buf).1 = e :: t ∧ e.isRead = true := by
  cases fuel with
  | zero => exact Or.inl ⟨rfl, rfl⟩
  | succ k => exact Or.inr (listenLoop_head c intfs g k s buf)

/-- Observing the loop for one pass more only adds calls at the end of the
run; when the shorter run is still running, the first call added is a
`ReadFrom`. -/
theorem listenLoop_extend {σ : Type} (c : conn σ) (intfs : List Interface) (g : UDPAddr) :
    ∀ (fuel : Nat) (s : σ) (buf : List Byte),
      ∃ ext, (listenLoop c intfs g (fuel + 1) s buf).1
            = (listenLoop c intfs g fuel s buf).1 ++ ext
        ∧ ((listenLoop c intfs g fuel s buf).2 = Outcome.running →
            ∃ e t, ext = e :: t ∧ e.isRead = true) := by
  intro fuel
  induction fuel with
  | zero =>
    intro s buf
    obtain ⟨e, t, ht, he⟩ := listenLoop_head c intfs g 0 s buf
    exact ⟨e :: t, by rw [ht]; rfl, fun _ => ⟨e, t, rfl, he⟩⟩
  | succ k ih =>
    intro s buf
    rw [listenLoop_succ c intfs g (k + 1) s buf, listenLoop_succ c intfs g k s buf]
    rcases hit : listenIter c intfs g s buf with ⟨⟨s1, buf1⟩, t, st⟩
    cases st with
    | next =>
      obtain ⟨ext, hext, hrun⟩ := ih s1 buf1
      refine ⟨ext, ?_, ?_⟩
      · simp only
        rw [hext, List.append_assoc]
      · intro h
        exact hrun h
    | ret err =>
      refine ⟨[], by simp, ?_⟩
      intro h
      cases h
    | panic p =>
      refine ⟨[], by simp, ?_⟩
      intro h
      cases h

/-- Wherever in a run of the loop a read returns a `net.Error` that is
temporary, the next call is the log line of that error, and after it either
the observation ends with the loop still running or the next call is a
`ReadFrom`. -/
theorem listenLoop_temporary {σ : Type} (c : conn σ) (intfs : List Interface) (g : UDPAddr) :
    ∀ (fuel : Nat) (s : σ) (buf : List Byte) (pre : List Event) (r : ReadResult)
      (b : List Byte) (post : List Event) (e : Error),
      (listenLoop c intfs g fuel s buf).1 = pre ++ Event.read r b :: post →
      r.err = some e → e.temporary = some true →
        ∃ rest, post = Event.log (.readFailed e) :: rest
          ∧ ((rest = [] ∧ (listenLoop c intfs g fuel s buf).2 = Outcome.running)
              ∨ ∃ e' t, rest = e' :: t ∧ e'.isRead = true) := by
  intro fuel
  induction fuel with
  | zero =>
    intro s buf pre r b post e hdec
    simp [listenLoop] at hdec
  | succ k ih =>
    intro s buf pre r b post e hdec herr htemp
    rw [listenLoop_succ] at hdec ⊢
    rcases listenIter_cases c intfs g s buf with
      ⟨p, hit⟩ | ⟨s1, s2, r0, t, st, hread, hit, hnr, _⟩
    · rw [hit] at hdec
      simp only at hdec
      cases pre with
      | nil => simp at hdec
      | cons x xs =>
        have := congrArg List.length hdec
        simp at this
    · have hnot : Event.read r b ∉ t := fun hm => by
        have := hnr _ hm
        simp [Event.isRead] at this
      cases pre with
      | nil =>
        have hr : r0 = r := by
          rw [hit] at hdec
          cases st <;>
            · simp only [List.nil_append, List.cons_append, List.cons.injEq,
                Event.read.injEq] at hdec
              exact hdec.1.1
        subst hr
        have hi : listenIter c intfs g s buf
            = ((s1, store buf r0.data),
                [Event.read r0 (store buf r0.data), Event.log (.readFailed e)],
                Step.next) := by
          simp [listenIter, hread, herr, htemp]
        rw [hi] at hdec ⊢
        simp only [List.nil_append, List.cons_append, List.cons.injEq, Event.read.injEq,
          true_and] at hdec
        refine ⟨(listenLoop c intfs g k s1 (store buf r0.data)).1, hdec.2.symm, ?_⟩
        exact listenLoop_nil_running_or_read c intfs g k s1 (store buf r0.data)
      | cons x xs =>
        rw [hit] at hdec ⊢
        cases st with
        | next =>
          simp only [List.cons_append, List.cons.injEq] at hdec
          obtain ⟨a', _, hrest⟩ := split_of_not_mem_left hdec.2.symm hnot
          exact ih s2 (store buf r0.data) a' r b post e hrest herr htemp
        | ret e' =>
          simp only [List.cons_append, List.cons.injEq] at hdec
          exact absurd (by rw [hdec.2]; simp) hnot
        | panic p =>
          simp only [List.cons_append, List.cons.injEq] at hdec
          exact absurd (by rw [hdec.2]; simp) hnot

/-- Observing `listen` for one pass more only adds calls at the end of the
run; when the shorter run is still running, the first call added is a
`ReadFrom`. -/
theorem listen_extend {σ : Type} (m : MDNSProxy) (c : conn σ) (g : UDPAddr) (s : σ)
    (fuel : Nat) :
    ∃ ext, (m.listen c g s (fuel + 1)).1 = (m.listen c g s fuel).1 ++ ext
      ∧ ((m.listen c g s fuel).2 = Outcome.running →
          ∃ e t, ext = e :: t ∧ e.isRead = true) := by
  rw [listen_eq m c g s (fuel + 1), listen_eq m c g s fuel]
  rcases hj : joinAll c g m.intfs s with ⟨s1, jt, jr⟩
  cases jr with
  | some e0 =>
    refine ⟨[], by simp, ?_⟩
    intro h
    cases h
  | none =>
    obtain ⟨ext, hext, hrun⟩ := listenLoop_extend c m.intfs g fuel s1 buf0
    refine ⟨ext, ?_, ?_⟩
    · simp only
      rw [hext, List.append_assoc]
    · intro h
      exact hrun h

/-- The run-level form of `listenLoop_temporary`. -/
theorem listen_temporary {σ : Type} (m : MDNSProxy) (c : conn σ) (g : UDPAddr) (s : σ)
    (fuel : Nat) (pre : List Event) (r : ReadResult) (b : List Byte) (post : List Event)
    (e : Error) (hrun : (m.listen c g s fuel).1 = pre ++ Event.read r b :: post)
    (herr : r.err = some e) (htemp : e.temporary = some true) :
    ∃ rest, post = Event.log (.readFailed e) :: rest
      ∧ ((rest = [] ∧ (m.listen c g s fuel).2 = Outcome.running)
          ∨ ∃ e' t, rest = e' :: t ∧ e'.isRead = true) := by
  rw [listen_eq m c g s fuel] at hrun ⊢
  rcases hj : joinAll c g m.intfs s with ⟨s1, jt, jr⟩
  have hev := joinAll_events c g m.intfs s
  rw [hj] at hev hrun
  simp only at hev
  have hnot : Event.read r b ∉ jt := fun hm => by
    have := (hev _ hm).1
    simp [Event.isRead] at this
  cases jr with
  | some e0 =>
    simp only at hrun
    exact absurd (by rw [hrun]; simp) hnot
  | none =>
    simp only at hrun ⊢
    obtain ⟨a', _, hrest⟩ := split_of_not_mem_left hrun.symm hnot
    exact listenLoop_temporary c m.intfs g fuel s1 buf0 a' r b post e hrest herr htemp

/-! ## The claims on the join phase and on read errors -/

/-- C4 (joins first): in any run of `listen`, (1) the `JoinGroup` calls are
those of an initial segment of the configured interface list, each on the
group address, in list order; (2) at any `ReadFrom` or `WriteTo` call of the
run, every configured interface has been joined, each join succeeded, and no
join follows; (3) a join that fails is the last call of the run, `listen`
returns its error, and no read or write was made before it. -/
theorem listen_joins_first {σ : Type} (m : MDNSProxy) (c : conn σ) (g : UDPAddr) (s : σ)
    (fuel : Nat) :
    joinCalls (m.listen c g s fuel).1 <+: m.intfs.map (fun i => (i, g))
      ∧ (∀ pre e post, (m.listen c g s fuel).1 = pre ++ e :: post →
          (e.isRead = true ∨ e.isWrite = true) →
            joinCalls pre = m.intfs.map (fun i => (i, g))
              ∧ (∀ ifi g' err, Event.join ifi g' err ∈ pre → err = none)
              ∧ joinCalls post = [])
      ∧ (∀ pre ifi g' err post,
          (m.listen c g s fuel).1 = pre ++ Event.join ifi g' (some err) :: post →
            post = [] ∧ (m.listen c g s fuel).2 = Outcome.returned err
              ∧ ∀ e ∈ pre, e.isRead = false ∧ e.isWrite = false) := by
  rcases hj : joinAll c g m.intfs s with ⟨s1, jt, jr⟩
  have hev := joinAll_events c g m.intfs s
  rw [hj] at hev
  simp only at hev
  cases jr with
  | some e0 =>
    have hl : m.listen c g s fuel = (jt, Outcome.returned e0) := by
      simp [MDNSProxy.listen, hj]
    obtain ⟨t0, ifi0, k, ht, hnone, _, hcalls⟩ := joinAll_fail c g m.intfs s e0 (by rw [hj])
    rw [hj] at ht hcalls
    simp only at ht hcalls
    rw [hl]
    refine ⟨?_, ?_, ?_⟩
    · show joinCalls jt <+: _
      rw [hcalls]
      exact (List.take_prefix _ _).map _
    · intro pre e post hdec he
      have hmem : e ∈ jt := by
        simp only at hdec
        rw [hdec]; simp
      have := hev e hmem
      rcases he with he | he <;> simp_all
    · intro pre ifi g' err post hdec
      simp only at hdec
      have hx : Event.join ifi g' (some err) ∉ t0 := by
        intro hmem
        have := hnone ifi g' (some err) hmem
        cases this
      obtain ⟨a', hpre, hlast⟩ := split_of_not_mem_left (hdec.symm.trans ht) hx
      cases a' with
      | nil =>
        simp only [List.nil_append, List.cons.injEq, Event.join.injEq, Option.some.injEq] at hlast
        obtain ⟨⟨_, _, rfl⟩, hpost⟩ := hlast
        refine ⟨hpost.symm, rfl, ?_⟩
        intro e he
        apply hev e
        rw [ht]
        simp only [List.append_nil] at hpre
        rw [hpre] at he
        exact List.mem_append_left _ he
      | cons y ys =>
        have := congrArg List.length hlast
        simp at this
  | none =>
    have hl : m.listen c g s fuel
        = (jt ++ (listenLoop c m.intfs g fuel s1 buf0).1,
            (listenLoop c m.intfs g fuel s1 buf0).2) := by
      simp [MDNSProxy.listen, hj, buf0]
    have hok := joinAll_ok c g m.intfs s (by rw [hj])
    rw [hj] at hok
    simp only at hok
    have hloop := listenLoop_events c m.intfs g fuel s1 buf0
    rw [hl]
    refine ⟨?_, ?_, ?_⟩
    · show joinCalls (jt ++ _) <+: _
      rw [joinCalls_append, joinCalls_eq_nil_of_events _ hloop, List.append_nil, hok.1]
    · intro pre e post hdec he
      simp only at hdec
      have hx : e ∉ jt := by
        intro hmem
        have := hev e hmem
        rcases he with he | he <;> simp_all
      obtain ⟨a', hpre, hlt⟩ := split_of_not_mem_left hdec.symm hx
      have ha' : ∀ x ∈ a', x.isJoin = false := fun x hx' =>
        hloop x (by rw [hlt]; exact List.mem_append_left _ hx')
      have hpost : ∀ x ∈ post, x.isJoin = false := fun x hx' =>
        hloop x (by rw [hlt]; simp [hx'])
      refine ⟨?_, ?_, joinCalls_eq_nil_of_events _ hpost⟩
      · rw [hpre, joinCalls_append, joinCalls_eq_nil_of_events _ ha', List.append_nil, hok.1]
      · intro ifi g' err hmem
        rw [hpre, List.mem_append] at hmem
        rcases hmem with hmem | hmem
        · exact hok.2 ifi g' err hmem
        · have := ha' _ hmem
          simp [Event.isJoin] at this
    · intro pre ifi g' err post hdec
      simp only at hdec
      have hmem : Event.join ifi g' (some err) ∈ jt ++ (listenLoop c m.intfs g fuel s1 buf0).1 := by
        rw [hdec]; simp
      rw [List.mem_append] at hmem
      rcases hmem with hmem | hmem
      · have := hok.2 ifi g' (some err) hmem
        cases this
      · have := hloop _ hmem
        simp [Event.isJoin] at this

/-- C4 at concrete runs: with interfaces 2, 3, 4 and the join on index 3
failing, `listen` joins 2, tries 3, and returns that error without a join for
4 or a read; when no join fails, the first read comes after the three joins. -/
theorem listen_joins_first_witness :
    (MDNSProxy.mk [eth0, eth1, wlan0] ⟨false, false⟩).listen noJoin3 mdnsUDPAddr4 0 5
        = ([Event.log (.joining mdnsUDPAddr4 "eth0"), Event.join eth0 mdnsUDPAddr4 none,
            Event.log (.joining mdnsUDPAddr4 "eth1"),
            Event.join eth1 mdnsUDPAddr4 (some errNoDevice)],
           Outcome.returned errNoDevice)
      ∧ joinCalls ((MDNSProxy.mk [eth0, eth1, wlan0] ⟨false, false⟩).listen closed
            mdnsUDPAddr4 0 5).1
          = [(eth0, mdnsUDPAddr4), (eth1, mdnsUDPAddr4), (wlan0, mdnsUDPAddr4)]
      ∧ joinCalls ((MDNSProxy.mk [eth0, eth1, wlan0] ⟨false, false⟩).listen noJoin3
            mdnsUDPAddr4 0 5).1 <+: [(eth0, mdnsUDPAddr4), (eth1, mdnsUDPAddr4), (wlan0, mdnsUDPAddr4)] :=
  ⟨rfl, rfl,
    (listen_joins_first (MDNSProxy.mk [eth0, eth1, wlan0] ⟨false, false⟩) noJoin3
      mdnsUDPAddr4 0 5).1⟩

/-- C5 as stated fails: the reads of `invalid` fail with `errInvalidConn`,
which is not a `net.Error`; `listen` does not return it but reads again, and
returns only at the third read, which fails with a non-temporary `net.Error`. -/
theorem listen_retries_unclassified_error :
    invalid.ReadFrom 0 buf0 = .ok (1, failedRead errInvalidConn)
      ∧ errInvalidConn.temporary = none
      ∧ (MDNSProxy.mk [eth0] ⟨false, false⟩).listen invalid mdnsUDPAddr4 0 2
          = ([Event.log (.joining mdnsUDPAddr4 "eth0"), Event.join eth0 mdnsUDPAddr4 none,
              Event.read (failedRead errInvalidConn) (store buf0 []),
              Event.log (.readFailed errInvalidConn),
              Event.read (failedRead errInvalidConn) (store (store buf0 []) []),
              Event.log (.readFailed errInvalidConn)],
             Outcome.running)
      ∧ ((MDNSProxy.mk [eth0] ⟨false, false⟩).listen invalid mdnsUDPAddr4 0 3).2
          = Outcome.returned errClosed :=
  ⟨rfl, rfl, rfl, rfl⟩

/-- C5 (amended): wherever in a run of `listen` a `ReadFrom` returns an error
that is a `net.Error` whose `Temporary()` is false, the only call after that
read is the log line of the error (so no write is issued for that read) and
`listen` returns that same error. -/
theorem listen_fatal_read_error {σ : Type} (m : MDNSProxy) (c : conn σ) (g : UDPAddr) (s : σ)
    (fuel : Nat) (pre : List Event) (r : ReadResult) (b : List Byte) (post : List Event)
    (err : Error) (hrun : (m.listen c g s fuel).1 = pre ++ Event.read r b :: post)
    (herr : r.err = some err) (htemp : err.temporary = some false) :
    post = [Event.log (.readFailed err)] ∧ (m.listen c g s fuel).2 = Outcome.returned err := by
  rcases hj : joinAll c g m.intfs s with ⟨s1, jt, jr⟩
  have hev := joinAll_events c g m.intfs s
  rw [hj] at hev
  simp only at hev
  have hnot : Event.read r b ∉ jt := fun hm => by
    have := (hev _ hm).1
    simp [Event.isRead] at this
  cases jr with
  | some e0 =>
    simp only [MDNSProxy.listen, hj] at hrun
    exact absurd (by rw [hrun]; simp) hnot
  | none =>
    simp only [MDNSProxy.listen, hj] at hrun ⊢
    obtain ⟨a', _, hrest⟩ := split_of_not_mem_left hrun.symm hnot
    exact listenLoop_fatal c m.intfs g fuel s1 _ a' r b post err hrest herr htemp

/-- C5 (amended) at a concrete run: two interfaces joined, then the first
read fails on a closed socket. -/
theorem listen_fatal_read_error_witness :
    (MDNSProxy.mk [eth0, eth1] ⟨false, false⟩).listen closed mdnsUDPAddr4 0 5
      = ([Event.log (.joining mdnsUDPAddr4 "eth0"), Event.join eth0 mdnsUDPAddr4 none,
          Event.log (.joining mdnsUDPAddr4 "eth1"), Event.join eth1 mdnsUDPAddr4 none,
          Event.read closedRead (store buf0 []), Event.log (.readFailed errClosed)],
         Outcome.returned errClosed) := by
  have h := listen_fatal_read_error (MDNSProxy.mk [eth0, eth1] ⟨false, false⟩) closed
    mdnsUDPAddr4 0 5
    [Event.log (.joining mdnsUDPAddr4 "eth0"), Event.join eth0 mdnsUDPAddr4 none,
      Event.log (.joining mdnsUDPAddr4 "eth1"), Event.join eth1 mdnsUDPAddr4 none]
    closedRead (store buf0 []) [Event.log (.readFailed errClosed)] errClosed rfl rfl rfl
  exact Prod.ext rfl h.2

/-- C6 (temporary read error): wherever in a run of `listen` a `ReadFrom`
returns an error that is a `net.Error` whose `Temporary()` is true:
(1) the only call up to the next read is the log line of the error (no write);
(2) that pass made nothing but the read and the log line and ended with
`continue`, and the loop, going on from the state the read left over the same
interface list and group, makes a `ReadFrom` as its next call;
(3) in the run, the log line is followed by a `ReadFrom`, unless the
observation ends there, and then `listen` has not returned: it is still
running;
(4) so if the run ends with `listen` returning an error, a later `ReadFrom`
came in between;
(5) observed for one pass more, the same run shows the read, the log line and
then a `ReadFrom`. -/
theorem listen_temporary_read_error {σ : Type} (m : MDNSProxy) (c : conn σ) (g : UDPAddr)
    (s : σ) (fuel : Nat) (pre : List Event) (r : ReadResult) (b : List Byte)
    (post : List Event) (err : Error)
    (hrun : (m.listen c g s fuel).1 = pre ++ Event.read r b :: post)
    (herr : r.err = some err) (htemp : err.temporary = some true) :
    untilRead post = [Event.log (.readFailed err)]
      ∧ (∃ s0 b0 s1, c.ReadFrom s0 b0 = .ok (s1, r)
          ∧ listenIter c m.intfs g s0 b0
              = ((s1, b), [Event.read r b, Event.log (.readFailed err)], Step.next)
          ∧ ∀ k, ∃ e t, (listenLoop c m.intfs g (k + 1) s1 b).1 = e :: t ∧ e.isRead = true)
      ∧ (∃ rest, post = Event.log (.readFailed err) :: rest
          ∧ ((rest = [] ∧ (m.listen c g s fuel).2 = Outcome.running)
              ∨ ∃ e t, rest = e :: t ∧ e.isRead = true))
      ∧ (∀ e0, (m.listen c g s fuel).2 = Outcome.returned e0 →
          ∃ e t, post = Event.log (.readFailed err) :: e :: t ∧ e.isRead = true)
      ∧ ∃ e t, (m.listen c g s (fuel + 1)).1
            = pre ++ Event.read r b :: Event.log (.readFailed err) :: e :: t
          ∧ e.isRead = true := by
  obtain ⟨s0, b0, s1, _, hread, hb, hit⟩ := listen_pass m c g s fuel pre r b post hrun
  have hi : listenIter c m.intfs g s0 b0
      = ((s1, store b0 r.data), [Event.read r (store b0 r.data), Event.log (.readFailed err)],
          Step.next) := by
    simp [listenIter, hread, herr, htemp]
  rw [hi, ← hb] at hit
  simp only [List.cons.injEq, true_and] at hit
  have htmp := listen_temporary m c g s fuel pre r b post err hrun herr htemp
  refine ⟨hit.symm, ⟨s0, b0, s1, hread, ?_, fun k => listenLoop_head c m.intfs g k s1 b⟩,
    htmp, ?_, ?_⟩
  · rw [hi, ← hb]
  · intro e0 hret
    obtain ⟨rest, hpost, hcase⟩ := htmp
    rcases hcase with ⟨_, hrunning⟩ | ⟨e, t, hrest, he⟩
    · rw [hret] at hrunning
      cases hrunning
    · exact ⟨e, t, by rw [hpost, hrest], he⟩
  · obtain ⟨rest, hpost, hcase⟩ := htmp
    obtain ⟨ext, hext, hmore⟩ := listen_extend m c g s fuel
    rw [hext, hrun, hpost]
    rcases hcase with ⟨hrest, hrunning⟩ | ⟨e, t, hrest, he⟩
    · obtain ⟨e, t, hx, he⟩ := hmore hrunning
      exact ⟨e, t, by rw [hrest, hx]; simp, he⟩
    · exact ⟨e, t ++ ext, by rw [hrest]; simp, he⟩

/-- C6 at a concrete run: two interfaces joined, then the first read of
`flaky` fails with a temporary error. Observed for that one pass `listen` is
still running; observed for two, the log line is followed by a `ReadFrom`. -/
theorem listen_temporary_read_error_witness :
    ((MDNSProxy.mk [eth0, eth1] ⟨false, false⟩).listen flaky mdnsUDPAddr4 0 1).2
        = Outcome.running
      ∧ ∃ e t, ((MDNSProxy.mk [eth0, eth1] ⟨false, false⟩).listen flaky mdnsUDPAddr4 0 (1 + 1)).1
            = [Event.log (.joining mdnsUDPAddr4 "eth0"), Event.join eth0 mdnsUDPAddr4 none,
                Event.log (.joining mdnsUDPAddr4 "eth1"), Event.join eth1 mdnsUDPAddr4 none]
              ++ Event.read (failedRead errAgain) (store buf0 [])
                :: Event.log (.readFailed errAgain) :: e :: t
          ∧ e.isRead = true :=
  ⟨rfl,
    (listen_temporary_read_error (MDNSProxy.mk [eth0, eth1] ⟨false, false⟩) flaky mdnsUDPAddr4
      0 1
      [Event.log (.joining mdnsUDPAddr4 "eth0"), Event.join eth0 mdnsUDPAddr4 none,
        Event.log (.joining mdnsUDPAddr4 "eth1"), Event.join eth1 mdnsUDPAddr4 none]
      (failedRead errAgain) (store buf0 []) [Event.log (.readFailed errAgain)] errAgain
      rfl rfl rfl).2.2.2.2⟩

/-! ## Lemmas on `Listen` -/

theorem joinAll_group {σ : Type} (c : conn σ) (g : UDPAddr) :
    ∀ (intfs : List Interface) (s : σ),
      ∀ ifi g' err, Event.join ifi g' err ∈ (joinAll c g intfs s).2.1 → g' = g := by
  intro intfs
  induction intfs with
  | nil => intro s ifi g' err he; simp [joinAll] at he
  | cons i rest ih =>
    intro s ifi g' err he
    rcases hj : c.JoinGroup s i g with ⟨s1, er⟩
    cases er with
    | some e0 =>
      simp only [joinAll, hj, List.mem_cons, List.mem_singleton, List.not_mem_nil, or_false] at he
      rcases he with he | he
      · cases he
      · cases he; rfl
    | none =>
      simp only [joinAll, hj, List.mem_cons] at he
      rcases he with he | he | he
      · cases he
      · cases he; rfl
      · exact ih s1 ifi g' err he

/-- Every join of a run of `listen` is for the group the run was given. -/
theorem listen_join_group {σ : Type} (m : MDNSProxy) (c : conn σ) (g : UDPAddr) (s : σ)
    (fuel : Nat) :
    ∀ ifi g' err, Event.join ifi g' err ∈ (m.listen c g s fuel).1 → g' = g := by
  intro ifi g' err he
  have hg := joinAll_group c g m.intfs s ifi g' err
  rcases hj : joinAll c g m.intfs s with ⟨s1, jt, jr⟩
  rw [hj] at hg
  cases jr with
  | some e0 =>
    simp only [MDNSProxy.listen, hj] at he
    exact hg he
  | none =>
    simp only [MDNSProxy.listen, hj, List.mem_append] at he
    rcases he with he | he
    · exact hg he
    · have := listenLoop_events c m.intfs g fuel s1 _ _ he
      simp [Event.isJoin] at this

theorem newConn4_events (os : Sockets) (addr : String) :
    ipv4Setup (newConn4 os addr).1 = (newConn4 os addr).1
      ∧ (∀ e ∈ (newConn4 os addr).1, e.isGo = false ∧ e.onIPv6 = false) := by
  unfold newConn4
  cases os.ListenPacket "udp4" addr <;> cases os.SetMulticastLoopback "udp4" true <;>
    cases os.SetMulticastTTL 255 <;>
    simp [ipv4Setup, MainEvent.isGo, MainEvent.onIPv6]

theorem newConn6_events (os : Sockets) (addr : String) :
    ipv4Setup (newConn6 os addr).1 = []
      ∧ (∀ e ∈ (newConn6 os addr).1, e.isGo = false) := by
  unfold newConn6
  cases os.ListenPacket "udp6" addr <;> cases os.SetMulticastLoopback "udp6" true <;>
    cases os.SetMulticastHopLimit 255 <;>
    simp [ipv4Setup, MainEvent.isGo]

/-- The first call of `newConn6` is `ListenPacket` on `"udp6"`. -/
theorem newConn6_head (os : Sockets) (addr : String) :
    ∃ er t, (newConn6 os addr).1 = MainEvent.ListenPacket "udp6" addr er :: t := by
  unfold newConn6
  cases os.ListenPacket "udp6" addr <;> cases os.SetMulticastLoopback "udp6" true <;>
    cases os.SetMulticastHopLimit 255 <;> exact ⟨_, _, rfl⟩

theorem newConn4_ok_events (os : Sockets) (addr : String) (h : (newConn4 os addr).2 = none) :
    (newConn4 os addr).1
      = [.ListenPacket "udp4" addr none, .SetMulticastLoopback "udp4" true none,
          .SetMulticastTTL 255 none,
          .SetControlMessage "udp4" [.FlagDst, .FlagInterface, .FlagTTL] true none] := by
  unfold newConn4 at h ⊢
  cases h1 : os.ListenPacket "udp4" addr <;> cases h2 : os.SetMulticastLoopback "udp4" true <;>
    cases h3 : os.SetMulticastTTL 255 <;> simp_all

theorem addr_eq : ":" ++ Itoa mdnsPort = ":5353" := by decide

/-- The only errors `Listen` returns are those of `newConn4` and `newConn6`. -/
theorem Listen_ret_error {σ4 σ6 : Type} (m : MDNSProxy) (os : Sockets)
    (pc4 : ipv4.PacketConn σ4) (s4 : σ4) (pc6 : ipv6.PacketConn σ6) (s6 : σ6) (fuel : Nat)
    (e : Error) (h : (m.Listen os pc4 s4 pc6 s6 fuel).ret = some (some e)) :
    (newConn4 os ":5353").2 = some e ∨ (newConn6 os ":5353").2 = some e := by
  rw [← addr_eq]
  rcases h4 : newConn4 os (":" ++ Itoa mdnsPort) with ⟨t4, r4⟩
  rcases h6 : newConn6 os (":" ++ Itoa mdnsPort) with ⟨t6, r6⟩
  cases hd4 : m.cfg.DisableIPv4 <;> cases hd6 : m.cfg.DisableIPv6 <;> cases r4 <;> cases r6 <;>
    simp [MDNSProxy.Listen, h4, h6, hd4, hd6] at h ⊢ <;>
    first
      | exact h
      | exact Or.inl h
      | exact Or.inr h
      | (split at h <;> simp at h)

/-- A nil control message from the embedded `ReadFrom` makes `conn4.ReadFrom`
and `conn6.ReadFrom` fault, whatever else the read handed back. -/
theorem ReadFrom_nil_control_message {σ : Type} (pc4 : ipv4.PacketConn σ)
    (pc6 : ipv6.PacketConn σ) (s : σ) (p : List Byte) :
    ((pc4.ReadFrom s p).2.cm = none → (conn4.mk pc4).ReadFrom s p = .error Panic.nilDeref)
      ∧ ((pc6.ReadFrom s p).2.cm = none → (conn6.mk pc6).ReadFrom s p = .error Panic.nilDeref) := by
  constructor
  · intro h
    rcases hr : pc4.ReadFrom s p with ⟨s1, r⟩
    rw [hr] at h
    simp only at h
    simp [conn4.ReadFrom, hr, h]
  · intro h
    rcases hr : pc6.ReadFrom s p with ⟨s1, r⟩
    rw [hr] at h
    simp only at h
    simp [conn6.ReadFrom, hr, h]

theorem ipv4Setup_append (a b : List MainEvent) :
    ipv4Setup (a ++ b) = ipv4Setup a ++ ipv4Setup b := by
  simp [ipv4Setup]

/-- The IPv4 side of `Listen` when IPv4 is enabled, whatever the IPv6 flag:
the calls of `newConn4`, then the start of the relay loop if the open
succeeded. -/
theorem Listen_ipv4_side {σ4 σ6 : Type} (m : MDNSProxy) (os : Sockets)
    (pc4 : ipv4.PacketConn σ4) (s4 : σ4) (pc6 : ipv6.PacketConn σ6) (s6 : σ6) (fuel : Nat)
    (h4 : m.cfg.DisableIPv4 = false) :
    ipv4Setup (m.Listen os pc4 s4 pc6 s6 fuel).events
        = (newConn4 os (":" ++ Itoa mdnsPort)).1
            ++ (match (newConn4 os (":" ++ Itoa mdnsPort)).2 with
                | none => [MainEvent.go Which.conn4 mdnsUDPAddr4 m.intfs]
                | some _ => [])
      ∧ (m.Listen os pc4 s4 pc6 s6 fuel).loop4
          = (match (newConn4 os (":" ++ Itoa mdnsPort)).2 with
              | none => some (m.listen (conn4.mk pc4).toConn mdnsUDPAddr4 s4 fuel)
              | some _ => none) := by
  have e4 := (newConn4_events os (":" ++ Itoa mdnsPort)).1
  have e6 := (newConn6_events os (":" ++ Itoa mdnsPort)).1
  rcases hn4 : newConn4 os (":" ++ Itoa mdnsPort) with ⟨t4, r4⟩
  rcases hn6 : newConn6 os (":" ++ Itoa mdnsPort) with ⟨t6, r6⟩
  rw [hn4] at e4
  rw [hn6] at e6
  simp only at e4 e6
  simp only [ipv4Setup] at e4 e6
  cases r4 with
  | some e =>
    simp [MDNSProxy.Listen, hn4, h4, ipv4Setup, e4]
  | none =>
    cases hd6 : m.cfg.DisableIPv6 with
    | true =>
      simp only [MDNSProxy.Listen, hn4, h4, hd6]
      simp only [Bool.false_eq_true, if_false, if_true]
      split <;> simp [ipv4Setup, e4]
    | false =>
      cases r6 with
      | some e =>
        simp [MDNSProxy.Listen, hn4, hn6, h4, hd6, ipv4Setup, e4, e6]
      | none =>
        simp only [MDNSProxy.Listen, hn4, hn6, h4, hd6]
        simp only [Bool.false_eq_true, if_false]
        split <;> simp [ipv4Setup, e4, e6]

/-- With IPv6 disabled nothing is done for IPv6. -/
theorem Listen_no_ipv6 {σ4 σ6 : Type} (m : MDNSProxy) (os : Sockets)
    (pc4 : ipv4.PacketConn σ4) (s4 : σ4) (pc6 : ipv6.PacketConn σ6) (s6 : σ6) (fuel : Nat)
    (h6 : m.cfg.DisableIPv6 = true) :
    (∀ ev ∈ (m.Listen os pc4 s4 pc6 s6 fuel).events, ev.onIPv6 = false)
      ∧ (m.Listen os pc4 s4 pc6 s6 fuel).loop6 = none := by
  have e4 := (newConn4_events os (":" ++ Itoa mdnsPort)).2
  rcases hn4 : newConn4 os (":" ++ Itoa mdnsPort) with ⟨t4, r4⟩
  rw [hn4] at e4
  simp only at e4
  have e4' : t4.filter MainEvent.onIPv6 = [] := by
    rw [List.filter_eq_nil_iff]
    intro ev hev
    simp [(e4 ev hev).2]
  have key : (m.Listen os pc4 s4 pc6 s6 fuel).events.filter MainEvent.onIPv6 = []
      ∧ (m.Listen os pc4 s4 pc6 s6 fuel).loop6 = none := by
    cases hd4 : m.cfg.DisableIPv4 with
    | true =>
      simp only [MDNSProxy.Listen, hd4, h6]
      simp [finished, MainEvent.onIPv6]
    | false =>
      cases r4 with
      | some e =>
        simp [MDNSProxy.Listen, hn4, hd4, h6, e4', MainEvent.onIPv6]
      | none =>
        simp only [MDNSProxy.Listen, hn4, hd4, h6]
        simp only [Bool.false_eq_true, if_false, if_true]
        have hne : ¬ mdnsUDPAddr4 = mdnsUDPAddr6 := by decide
        split <;> simp [e4', hne, MainEvent.onIPv6]
  refine ⟨?_, key.2⟩
  intro ev hev
  have := List.filter_eq_nil_iff.1 key.1 ev hev
  simpa using this

/-! ## The claims on `Listen` and on the connection wrappers -/

/-- C7 (evaluation at the failing input): IPv4 only, one interface, the group
join fails. The relay loop returns the join error, `Listen` waits for the
loop, and then returns nil: the error of the loop is dropped. -/
theorem Listen_drops_loop_error :
    (MDNSProxy.mk [eth0] ⟨false, true⟩).listen (conn4.mk (failing4 (some errNoDevice))).toConn
        mdnsUDPAddr4 0 1
        = ([Event.log (.joining mdnsUDPAddr4 "eth0"),
            Event.join eth0 mdnsUDPAddr4 (some errNoDevice)], Outcome.returned errNoDevice)
      ∧ ((MDNSProxy.mk [eth0] ⟨false, true⟩).Listen osOK (failing4 (some errNoDevice)) 0
            (failing6 none) 0 1).loop4
          = some ([Event.log (.joining mdnsUDPAddr4 "eth0"),
              Event.join eth0 mdnsUDPAddr4 (some errNoDevice)], Outcome.returned errNoDevice)
      ∧ ((MDNSProxy.mk [eth0] ⟨false, true⟩).Listen osOK (failing4 (some errNoDevice)) 0
            (failing6 none) 0 1).ret = some none :=
  ⟨rfl, rfl, rfl⟩

/-- C8 as stated fails: both families enabled, the IPv4 open succeeds and the
IPv6 open fails. `Listen` returns the IPv6 error, but the `go` statement for
the IPv4 relay loop was executed before the IPv6 open was tried. -/
theorem Listen_ipv4_loop_started_before_ipv6_open :
    ((MDNSProxy.mk [eth0, eth1] ⟨false, false⟩).Listen osNoIPv6 (failing4 none) 0
          (failing6 none) 0 1).events
        = [.ListenPacket "udp4" ":5353" none, .SetMulticastLoopback "udp4" true none,
            .SetMulticastTTL 255 none,
            .SetControlMessage "udp4" [.FlagDst, .FlagInterface, .FlagTTL] true none,
            .go Which.conn4 mdnsUDPAddr4 [eth0, eth1],
            .ListenPacket "udp6" ":5353" (some errNoIPv6),
            .Close Which.conn4, .cancel]
      ∧ ((MDNSProxy.mk [eth0, eth1] ⟨false, false⟩).Listen osNoIPv6 (failing4 none) 0
            (failing6 none) 0 1).ret = some (some errNoIPv6)
      ∧ ((MDNSProxy.mk [eth0, eth1] ⟨false, false⟩).Listen osNoIPv6 (failing4 none) 0
            (failing6 none) 0 1).loop4.isSome = true :=
  ⟨rfl, rfl, rfl⟩

/-- C8 (amended): when the open of an enabled family fails, `Listen` returns
that error and the relay loop of that family is not started. (1) If it is the
IPv4 open, no relay loop was started at all and nothing was done for IPv6: the
calls of `Listen` are those of `newConn4` and the deferred `cancel`. (2) If it
is the IPv6 open (IPv4 disabled, or opened), the IPv6 loop was not started,
while the IPv4 loop was started exactly when IPv4 is enabled; with IPv4
disabled the calls are those of `newConn6` and `cancel`; with IPv4 enabled
they are, in this order, the calls of `newConn4` (none of them for IPv6), the
`go` statement of the IPv4 relay loop, the calls of `newConn6` (the first of
them `ListenPacket` on `"udp6"`), the deferred `conn4.Close` and `cancel`: the
IPv4 loop was started before the IPv6 open was attempted. -/
theorem Listen_open_failure {σ4 σ6 : Type} (m : MDNSProxy) (os : Sockets)
    (pc4 : ipv4.PacketConn σ4) (s4 : σ4) (pc6 : ipv6.PacketConn σ6) (s6 : σ6) (fuel : Nat) :
    (∀ e, m.cfg.DisableIPv4 = false → (newConn4 os ":5353").2 = some e →
        (m.Listen os pc4 s4 pc6 s6 fuel).ret = some (some e)
          ∧ (m.Listen os pc4 s4 pc6 s6 fuel).loop4 = none
          ∧ (m.Listen os pc4 s4 pc6 s6 fuel).loop6 = none
          ∧ (∀ ev ∈ (m.Listen os pc4 s4 pc6 s6 fuel).events,
              ev.isGo = false ∧ ev.onIPv6 = false)
          ∧ (m.Listen os pc4 s4 pc6 s6 fuel).events
              = (newConn4 os ":5353").1 ++ [MainEvent.cancel])
      ∧ (∀ e, (m.cfg.DisableIPv4 = true ∨ (newConn4 os ":5353").2 = none) →
          m.cfg.DisableIPv6 = false → (newConn6 os ":5353").2 = some e →
            (m.Listen os pc4 s4 pc6 s6 fuel).ret = some (some e)
              ∧ (m.Listen os pc4 s4 pc6 s6 fuel).loop6 = none
              ∧ (∀ ev ∈ (m.Listen os pc4 s4 pc6 s6 fuel).events,
                  ∀ g i, ev ≠ MainEvent.go Which.conn6 g i)
              ∧ (m.Listen os pc4 s4 pc6 s6 fuel).loop4.isSome = !m.cfg.DisableIPv4
              ∧ (MainEvent.go Which.conn4 mdnsUDPAddr4 m.intfs
                    ∈ (m.Listen os pc4 s4 pc6 s6 fuel).events
                  ↔ m.cfg.DisableIPv4 = false)
              ∧ (m.cfg.DisableIPv4 = true →
                  (m.Listen os pc4 s4 pc6 s6 fuel).events
                    = (newConn6 os ":5353").1 ++ [MainEvent.cancel])
              ∧ (m.cfg.DisableIPv4 = false →
                  ∃ er rest,
                    (newConn6 os ":5353").1 = MainEvent.ListenPacket "udp6" ":5353" er :: rest
                      ∧ (m.Listen os pc4 s4 pc6 s6 fuel).events
                          = (newConn4 os ":5353").1
                              ++ MainEvent.go Which.conn4 mdnsUDPAddr4 m.intfs
                                :: MainEvent.ListenPacket "udp6" ":5353" er :: rest
                              ++ [MainEvent.Close Which.conn4, MainEvent.cancel]
                      ∧ (∀ ev ∈ (newConn4 os ":5353").1,
                          ev.isGo = false ∧ ev.onIPv6 = false)
                      ∧ ∀ ev ∈ rest, ev.isGo = false)) := by
  rw [← addr_eq]
  have e4 := (newConn4_events os (":" ++ Itoa mdnsPort)).2
  have e6 := (newConn6_events os (":" ++ Itoa mdnsPort)).2
  have hhead := newConn6_head os (":" ++ Itoa mdnsPort)
  rcases h4 : newConn4 os (":" ++ Itoa mdnsPort) with ⟨t4, r4⟩
  rcases h6 : newConn6 os (":" ++ Itoa mdnsPort) with ⟨t6, r6⟩
  rw [h4] at e4
  rw [h6] at e6 hhead
  simp only at e4 e6 hhead
  have g4 : ∀ c g i, MainEvent.go c g i ∉ t4 := fun c g i hm => by
    have := (e4 _ hm).1
    simp [MainEvent.isGo] at this
  have g6 : ∀ c g i, MainEvent.go c g i ∉ t6 := fun c g i hm => by
    have := e6 _ hm
    simp [MainEvent.isGo] at this
  constructor
  · intro e hd4 hr
    simp only at hr
    subst hr
    have hL : m.Listen os pc4 s4 pc6 s6 fuel
        = { events := t4 ++ [MainEvent.cancel], loop4 := none, loop6 := none,
            ret := some (some e) } := by
      simp [MDNSProxy.Listen, h4, hd4]
    rw [hL]
    refine ⟨rfl, rfl, rfl, ?_, rfl⟩
    intro ev hev
    simp only [List.mem_append, List.mem_singleton] at hev
    rcases hev with hev | rfl
    · exact e4 ev hev
    · simp [MainEvent.isGo, MainEvent.onIPv6]
  · intro e hor hd6 hr
    simp only at hr hor
    subst hr
    cases hd4 : m.cfg.DisableIPv4 with
    | true =>
      have hL : m.Listen os pc4 s4 pc6 s6 fuel
          = { events := t6 ++ [MainEvent.cancel], loop4 := none, loop6 := none,
              ret := some (some e) } := by
        simp [MDNSProxy.Listen, h6, hd4, hd6]
      rw [hL]
      refine ⟨rfl, rfl, ?_, rfl, ?_, fun _ => rfl, fun h => by cases h⟩
      · intro ev hev g i
        simp only [List.mem_append, List.mem_singleton] at hev
        rcases hev with hev | rfl
        · rintro rfl
          exact g6 _ _ _ hev
        · simp
      · simp only [List.mem_append, List.mem_singleton]
        constructor
        · rintro (hev | hev)
          · exact absurd hev (g6 _ _ _)
          · cases hev
        · intro h; cases h
    | false =>
      rw [hd4] at hor
      simp only [Bool.false_eq_true, false_or] at hor
      subst hor
      have hL : m.Listen os pc4 s4 pc6 s6 fuel
          = { events := t4 ++ [MainEvent.go Which.conn4 mdnsUDPAddr4 m.intfs] ++ t6
                ++ [MainEvent.Close Which.conn4] ++ [MainEvent.cancel],
              loop4 := some (m.listen (conn4.mk pc4).toConn mdnsUDPAddr4 s4 fuel),
              loop6 := none, ret := some (some e) } := by
        simp [MDNSProxy.Listen, h4, h6, hd4, hd6]
      rw [hL]
      obtain ⟨er, rest, hrest⟩ := hhead
      refine ⟨rfl, rfl, ?_, rfl, ?_, (fun h => nomatch h),
        fun _ => ⟨er, rest, hrest, by simp [hrest], e4,
          fun ev hev => e6 ev (by rw [hrest]; exact List.mem_cons_of_mem _ hev)⟩⟩
      · intro ev hev g i
        simp only [List.mem_append, List.mem_singleton] at hev
        rcases hev with (((hev | rfl) | hev) | rfl) | rfl
        · rintro rfl
          exact g4 _ _ _ hev
        · simp
        · rintro rfl
          exact g6 _ _ _ hev
        · simp
        · simp
      · simp

/-- C8 (amended) at concrete runs: on a host where the IPv4 open fails, no
loop is started; on a host where only the IPv6 open fails, the IPv4 loop is
the only one started. -/
theorem Listen_open_failure_witness :
    (((MDNSProxy.mk [eth0, eth1] ⟨false, false⟩).Listen osNoIPv4 (failing4 none) 0
          (failing6 none) 0 1).ret = some (some errClosed)
        ∧ ((MDNSProxy.mk [eth0, eth1] ⟨false, false⟩).Listen osNoIPv4 (failing4 none) 0
            (failing6 none) 0 1).loop4 = none)
      ∧ (((MDNSProxy.mk [eth0, eth1] ⟨false, false⟩).Listen osNoIPv6 (failing4 none) 0
            (failing6 none) 0 1).ret = some (some errNoIPv6)
          ∧ ((MDNSProxy.mk [eth0, eth1] ⟨false, false⟩).Listen osNoIPv6 (failing4 none) 0
              (failing6 none) 0 1).loop6 = none) :=
  ⟨⟨((Listen_open_failure (MDNSProxy.mk [eth0, eth1] ⟨false, false⟩) osNoIPv4 (failing4 none) 0
        (failing6 none) 0 1).1 errClosed rfl rfl).1,
      ((Listen_open_failure (MDNSProxy.mk [eth0, eth1] ⟨false, false⟩) osNoIPv4 (failing4 none) 0
        (failing6 none) 0 1).1 errClosed rfl rfl).2.1⟩,
    ⟨((Listen_open_failure (MDNSProxy.mk [eth0, eth1] ⟨false, false⟩) osNoIPv6 (failing4 none) 0
        (failing6 none) 0 1).2 errNoIPv6 (Or.inr rfl) rfl rfl).1,
      ((Listen_open_failure (MDNSProxy.mk [eth0, eth1] ⟨false, false⟩) osNoIPv6 (failing4 none) 0
        (failing6 none) 0 1).2 errNoIPv6 (Or.inr rfl) rfl rfl).2.1⟩⟩

/-- C9 (IPv6 disabled, IPv4 enabled): `Listen` does nothing for IPv6 (no
`"udp6"` socket call, no relay loop on `conn6` or for `ff02::fb`), and every
join of the IPv4 relay loop is for `224.0.0.251:5353`, which is not the IPv6
group; the IPv4 set-up calls and the IPv4 relay loop are those of the same run
with IPv6 enabled; and when `newConn4` succeeds they are: one `"udp4"`
`ListenPacket` on `":5353"` with its three socket options, then one relay loop
started on that connection for `224.0.0.251:5353` over the whole configured
interface list. -/
theorem Listen_disable_ipv6 {σ4 σ6 : Type} (m : MDNSProxy) (os : Sockets)
    (pc4 : ipv4.PacketConn σ4) (s4 : σ4) (pc6 : ipv6.PacketConn σ6) (s6 : σ6) (fuel : Nat)
    (h4 : m.cfg.DisableIPv4 = false) (h6 : m.cfg.DisableIPv6 = true) :
    (∀ ev ∈ (m.Listen os pc4 s4 pc6 s6 fuel).events, ev.onIPv6 = false)
      ∧ (m.Listen os pc4 s4 pc6 s6 fuel).loop6 = none
      ∧ (∀ t o, (m.Listen os pc4 s4 pc6 s6 fuel).loop4 = some (t, o) →
          ∀ ifi g err, Event.join ifi g err ∈ t → g = mdnsUDPAddr4 ∧ g ≠ mdnsUDPAddr6)
      ∧ ipv4Setup (m.Listen os pc4 s4 pc6 s6 fuel).events
          = ipv4Setup ((MDNSProxy.mk m.intfs ⟨false, false⟩).Listen os pc4 s4 pc6 s6 fuel).events
      ∧ (m.Listen os pc4 s4 pc6 s6 fuel).loop4
          = ((MDNSProxy.mk m.intfs ⟨false, false⟩).Listen os pc4 s4 pc6 s6 fuel).loop4
      ∧ ((newConn4 os ":5353").2 = none →
          ipv4Setup (m.Listen os pc4 s4 pc6 s6 fuel).events
              = [.ListenPacket "udp4" ":5353" none, .SetMulticastLoopback "udp4" true none,
                  .SetMulticastTTL 255 none,
                  .SetControlMessage "udp4" [.FlagDst, .FlagInterface, .FlagTTL] true none,
                  .go Which.conn4 { IP := IPv4 224 0 0 251, Port := 5353 } m.intfs]
            ∧ (m.Listen os pc4 s4 pc6 s6 fuel).loop4
                = some (m.listen (conn4.mk pc4).toConn { IP := IPv4 224 0 0 251, Port := 5353 }
                    s4 fuel)) := by
  have hno := Listen_no_ipv6 m os pc4 s4 pc6 s6 fuel h6
  have hside := Listen_ipv4_side m os pc4 s4 pc6 s6 fuel h4
  have hside0 := Listen_ipv4_side (MDNSProxy.mk m.intfs ⟨false, false⟩) os pc4 s4 pc6 s6 fuel rfl
  have hne : mdnsUDPAddr4 ≠ mdnsUDPAddr6 := by decide
  refine ⟨hno.1, hno.2, ?_, ?_, ?_, ?_⟩
  · intro t o hl ifi g err hmem
    rw [hside.2] at hl
    cases hr : (newConn4 os (":" ++ Itoa mdnsPort)).2 with
    | some e => rw [hr] at hl; cases hl
    | none =>
      rw [hr] at hl
      simp only [Option.some.injEq] at hl
      have hg := listen_join_group m (conn4.mk pc4).toConn mdnsUDPAddr4 s4 fuel ifi g err
        (by rw [hl]; exact hmem)
      subst hg
      exact ⟨rfl, hne⟩
  · rw [hside.1, hside0.1]
  · rw [hside.2, hside0.2]
    cases (newConn4 os (":" ++ Itoa mdnsPort)).2 <;> rfl
  · intro hok
    rw [← addr_eq] at hok ⊢
    rw [hside.1, hside.2, hok, newConn4_ok_events os _ hok]
    exact ⟨rfl, rfl⟩

/-- C9 at a concrete run: interfaces 2 and 3, IPv6 disabled, every socket call
succeeding. -/
theorem Listen_disable_ipv6_witness :
    ipv4Setup ((MDNSProxy.mk [eth0, eth1] ⟨false, true⟩).Listen osOK (failing4 none) 0
        (failing6 none) 0 1).events
      = [.ListenPacket "udp4" ":5353" none, .SetMulticastLoopback "udp4" true none,
          .SetMulticastTTL 255 none,
          .SetControlMessage "udp4" [.FlagDst, .FlagInterface, .FlagTTL] true none,
          .go Which.conn4 { IP := IPv4 224 0 0 251, Port := 5353 } [eth0, eth1]]
      ∧ ((MDNSProxy.mk [eth0, eth1] ⟨false, true⟩).Listen osOK (failing4 none) 0
          (failing6 none) 0 1).loop6 = none :=
  ⟨((Listen_disable_ipv6 (MDNSProxy.mk [eth0, eth1] ⟨false, true⟩) osOK (failing4 none) 0
      (failing6 none) 0 1 rfl rfl).2.2.2.2.2 rfl).1,
    (Listen_disable_ipv6 (MDNSProxy.mk [eth0, eth1] ⟨false, true⟩) osOK (failing4 none) 0
      (failing6 none) 0 1 rfl rfl).2.1⟩

/-- C10 (evaluation at the failing input): the embedded `ReadFrom` fails and,
as golang.org/x/net does then, hands back a nil control message together with
the error. `conn4.ReadFrom` and `conn6.ReadFrom` fault on the nil pointer
instead of returning the error, and so does a successful read without a
control message; a relay loop on such a connection ends in that fault at its
first read, without having been given the error to classify. -/
theorem ReadFrom_faults_without_control_message :
    ((failing4 none).ReadFrom 0 buf0).2.cm = none
      ∧ ((failing4 none).ReadFrom 0 buf0).2.err = some errAgain
      ∧ (conn4.mk (failing4 none)).ReadFrom 0 buf0 = .error Panic.nilDeref
      ∧ (conn6.mk (failing6 none)).ReadFrom 0 buf0 = .error Panic.nilDeref
      ∧ (bare4.ReadFrom 0 buf0).2.err = none
      ∧ (conn4.mk bare4).ReadFrom 0 buf0 = .error Panic.nilDeref
      ∧ (MDNSProxy.mk [eth0, eth1] ⟨false, false⟩).listen (conn4.mk (failing4 none)).toConn
            mdnsUDPAddr4 0 3
          = ([Event.log (.joining mdnsUDPAddr4 "eth0"), Event.join eth0 mdnsUDPAddr4 none,
              Event.log (.joining mdnsUDPAddr4 "eth1"), Event.join eth1 mdnsUDPAddr4 none,
              Event.readFault Panic.nilDeref], Outcome.panicked Panic.nilDeref) :=
  ⟨rfl, rfl, rfl, rfl, rfl, rfl, rfl⟩

end iotgw
